import Mathlib

/-!
Verification of `modmod`'s book module (`src/modmod/src/book.rs`).

The embedding models Rust `String` values as `List Char`, `PathBuf` values as
plain strings (`List Char`, joined with `'/'`), and the filesystem layer
(`create_dir_all`, `create_file`, `write_all`, `write_fmt`, `read_to_string`)
as operations against a `World` that decides which primitive operations
succeed, recording the successful operations in an event log.
-/

/-- Strings of the Rust program are modelled as lists of characters. -/
abbrev Str := List Char

/-- Coercion from Lean string literals into the model's string type. -/
def str (s : String) : Str := s.data

/-! ## Rust `str::replace`

`replaceFuel` scans the string left to right; at each position, if the
(non-empty) pattern matches it emits the replacement and skips past the
match, otherwise it keeps the character.  This is exactly the semantics of
Rust's `str::replace` for a non-empty pattern.  The fuel argument (always
instantiated with the string length) makes the recursion structural so that
concrete instances reduce by `decide`. -/
def replaceFuel : Nat → Str → Str → Str → Str
  | 0, s, _, _ => s
  | _ + 1, [], _, _ => []
  | fuel + 1, c :: rest, pat, rep =>
    if pat.isPrefixOf (c :: rest) then
      rep ++ replaceFuel fuel (rest.drop (pat.length - 1)) pat rep
    else
      c :: replaceFuel fuel rest pat rep

/-- Model of Rust `str::replace` (all non-overlapping occurrences, left to right). -/
def replaceStr (s pat rep : Str) : Str := replaceFuel s.length s pat rep

/-- Boolean substring test: does `pat` occur anywhere in `s`? -/
def containsStr (s pat : Str) : Bool :=
  match s with
  | [] => pat.isEmpty
  | _ :: rest => pat.isPrefixOf s || containsStr rest pat

/-- Model of Rust `str::trim`: remove leading and trailing whitespace. -/
def trimStr (s : Str) : Str :=
  ((s.dropWhile Char.isWhitespace).reverse.dropWhile Char.isWhitespace).reverse

/-- Decimal rendering of a natural number, digit accumulator style; models
Rust's `Display` for the 1-based counters produced by `.zip(1..)`. -/
def natStrAux : Nat → Nat → Str → Str
  | 0, _, acc => acc
  | fuel + 1, n, acc =>
    if n < 10 then Nat.digitChar n :: acc
    else natStrAux fuel (n / 10) (Nat.digitChar (n % 10) :: acc)

/-- Decimal rendering of a natural number (model of `format!("{n}")`). -/
def natStr (n : Nat) : Str := natStrAux (n + 1) n []

/-- Model of `format!("{chapter_i}.{section_i}.{subsection_i}")`. -/
def refString (ci si ui : Nat) : Str :=
  natStr ci ++ '.' :: natStr si ++ '.' :: natStr ui

/-- Slug transformation of a single character: ASCII digits and lowercase
letters are kept, ASCII uppercase letters are lowercased, everything else
becomes the separator `'-'`. -/
def tagChar (c : Char) : Char :=
  if 48 ≤ c.toNat ∧ c.toNat ≤ 57 then c
  else if 97 ≤ c.toNat ∧ c.toNat ≤ 122 then c
  else if 65 ≤ c.toNat ∧ c.toNat ≤ 90 then Char.ofNat (c.toNat + 32)
  else '-'

/-- Modelled from the spec: the slugify function `to_tag` lives in the crate
root (`crate::to_tag`), outside the given source file.  Per the spec it
derives "a filesystem-safe filename from the section title (slugify:
lowercase, non-alphanumeric → separator)". -/
def to_tag (t : Str) : Str := t.map tagChar

/-- Model of `Path::join`: paths are plain strings joined with `'/'`. -/
def pjoin (p q : Str) : Str := p ++ '/' :: q

/-- The literal token `#[modmod:exercise_dir]` replaced by the exercise directory. -/
def dirToken : Str := str "#[modmod:exercise_dir]"

/-- The literal token `#[modmod:exercise_ref]` replaced by the exercise reference. -/
def refToken : Str := str "#[modmod:exercise_ref]"

/-- The three textual substitutions of `Book::render` (book.rs lines 99-111),
in source order: exercise-directory insertion, exercise-reference insertion,
then demotion of `"\n# "` to `"\n### "`. -/
def substitute (ci si ui : Nat) (out_dir content : Str) : Str :=
  replaceStr
    (replaceStr
      (replaceStr content dirToken out_dir)
      refToken (refString ci si ui))
    (str "\n# ") (str "\n### ")

/-! ## Data model (book.rs lines 26-31, 122-139) -/

/-- Model of `SubSection`: a title, a source content path and an exercise
directory path. -/
structure SubSection where
  title : Str
  content : Str
  out_dir : Str
deriving DecidableEq, Repr

/-- Model of `Section`: a title and its subsections in order. -/
structure Section where
  title : Str
  subsections : List SubSection
deriving DecidableEq, Repr

/-- Model of `Chapter`: a title and its sections in order. -/
structure Chapter where
  title : Str
  sections : List Section
deriving DecidableEq, Repr

/-- Model of `Book`: a title and its chapters in order. -/
structure Book where
  title : Str
  chapters : List Chapter
deriving DecidableEq, Repr

/-- Model of the single error kind `RenderBookError` ("unable to render book"). -/
structure RenderBookError where
deriving DecidableEq, Repr

/-! ## Filesystem model -/

/-- Filesystem events recorded by a render: directory creation, file creation
(truncating), and appending a write to an open file. -/
inductive Ev where
  | mkdir (p : Str)
  | create (p : Str)
  | write (p : Str) (s : Str)
deriving DecidableEq, Repr

/-- A `World` decides which primitive I/O operations succeed and what each
readable file contains. -/
structure World where
  dirOk : Str → Bool
  createOk : Str → Bool
  writeOk : Str → Bool
  read : Str → Option Str

/-- Final contents of each file after a list of events: `create` truncates
(or creates empty), `write` appends to an existing file. -/
def applyEv (f : Str → Option Str) : Ev → (Str → Option Str)
  | Ev.mkdir _ => f
  | Ev.create p => fun q => if q = p then some [] else f q
  | Ev.write p s => fun q => if q = p then (f q).map (· ++ s) else f q

/-- Contents of the file at path `p` after the events `evs` (or `none` if no
such file was created). -/
def getFile (evs : List Ev) (p : Str) : Option Str :=
  evs.foldl applyEv (fun _ => none) p

/-! ## The renderer (book.rs lines 42-119)

Each helper mirrors one of the nested `for` loops of `Book::render`; the
1-based counters mirror `.zip(1..)`.  Every function threads the event log
and stops at the first failing primitive operation, returning
`RenderBookError` exactly as the `?` operator does in the source. -/

/-- One step of the subsection loop (book.rs lines 90-113): write the
`## Exercise` heading, read the source content, apply the three
substitutions, and write the trimmed result followed by a newline. -/
def renderSubs (w : World) (secPath : Str) (ci si : Nat) :
    List SubSection → Nat → List Ev → List Ev × Option RenderBookError
  | [], _, l => (l, none)
  | sub :: rest, ui, l =>
    if w.writeOk secPath then
      let l := l ++ [Ev.write secPath
        (str "## Exercise " ++ refString ci si ui ++ str ": " ++ sub.title ++ str "\n\n")]
      match w.read sub.content with
      | none => (l, some {})
      | some content =>
        if w.writeOk secPath then
          let l := l ++ [Ev.write secPath
            (trimStr (substitute ci si ui sub.out_dir content) ++ str "\n")]
          renderSubs w secPath ci si rest (ui + 1) l
        else (l, some {})
    else (l, some {})

/-- One step of the section loop (book.rs lines 70-114): write the indented
manifest line, create the section file, write the `# Unit` heading, then
render the subsections. -/
def renderSecs (w : World) (srcDir sumPath : Str) (ci : Nat) :
    List Section → Nat → List Ev → List Ev × Option RenderBookError
  | [], _, l => (l, none)
  | sec :: rest, si, l =>
    let fname := to_tag sec.title ++ str ".md"
    if w.writeOk sumPath then
      let l := l ++ [Ev.write sumPath
        (str "\t- [" ++ sec.title ++ str "](" ++ fname ++ str ")\n")]
      let secPath := pjoin srcDir fname
      if w.createOk secPath then
        let l := l ++ [Ev.create secPath]
        if w.writeOk secPath then
          let l := l ++ [Ev.write secPath
            (str "# Unit " ++ natStr ci ++ '.' :: natStr si ++ str " - " ++ sec.title ++ str "\n\n")]
          match renderSubs w secPath ci si sec.subsections 1 l with
          | (l, none) => renderSecs w srcDir sumPath ci rest (si + 1) l
          | (l, some e) => (l, some e)
        else (l, some {})
      else (l, some {})
    else (l, some {})

/-- One step of the chapter loop (book.rs lines 65-116): write the draft
chapter manifest line, render the sections, then write the separating blank
line. -/
def renderChaps (w : World) (srcDir sumPath : Str) :
    List Chapter → Nat → List Ev → List Ev × Option RenderBookError
  | [], _, l => (l, none)
  | ch :: rest, ci, l =>
    if w.writeOk sumPath then
      let l := l ++ [Ev.write sumPath (str "- [" ++ ch.title ++ str "]()\n")]
      match renderSecs w srcDir sumPath ci ch.sections 1 l with
      | (l, none) =>
        if w.writeOk sumPath then
          let l := l ++ [Ev.write sumPath (str "\n")]
          renderChaps w srcDir sumPath rest (ci + 1) l
        else (l, some {})
      | (l, some e) => (l, some e)
    else (l, some {})

/-- The fixed static `book.toml` payload (book.rs lines 51-58). -/
def bookTomlPayload : Str :=
  str "[book]\nlanguage = \"en\"\nmultilingual = false\n\n[build]\nbuild-dir = \"./target\"\n"

/-- Model of `Book::render` (book.rs lines 42-119): create the output
directories, write `book.toml` and the `SUMMARY.md` header, then walk the
chapter tree; returns the event log of successful operations together with
`some RenderBookError` if any primitive operation failed. -/
def Book.render (b : Book) (out_dir : Str) (w : World) : List Ev × Option RenderBookError :=
  let bookOutDir := pjoin out_dir (str "book")
  let bookSrcDir := pjoin bookOutDir (str "src")
  if w.dirOk bookSrcDir then
    let l := [Ev.mkdir bookSrcDir]
    let bookTomlPath := pjoin bookOutDir (str "book.toml")
    if w.createOk bookTomlPath then
      let l := l ++ [Ev.create bookTomlPath]
      if w.writeOk bookTomlPath then
        let l := l ++ [Ev.write bookTomlPath bookTomlPayload]
        let sumPath := pjoin bookSrcDir (str "SUMMARY.md")
        if w.createOk sumPath then
          let l := l ++ [Ev.create sumPath]
          if w.writeOk sumPath then
            let l := l ++ [Ev.write sumPath (str "# Summary\n\n")]
            renderChaps w bookSrcDir sumPath b.chapters 1 l
          else (l, some {})
        else (l, some {})
      else (l, some {})
    else (l, some {})
  else ([], some {})

/-! ## The builder API (book.rs lines 141-201) -/

/-- Model of `BookBuilder`: owns the book under construction. -/
structure BookBuilder where
  book : Book
deriving DecidableEq, Repr

/-- Model of `ChapterBuilder`: the parent book builder plus the chapter
under construction. -/
structure ChapterBuilder where
  book_builder : BookBuilder
  chapter : Chapter
deriving DecidableEq, Repr

/-- Model of `SectionBuilder`: the parent chapter builder plus the section
under construction. -/
structure SectionBuilder where
  chapter_builder : ChapterBuilder
  «section» : Section
deriving DecidableEq, Repr

/-- Model of `Book::builder` (book.rs lines 33-40). -/
def Book.builder (title : Str) : BookBuilder :=
  { book := { title := title, chapters := [] } }

/-- Model of `BookBuilder::chapter` (book.rs lines 146-154). -/
def BookBuilder.chapter (b : BookBuilder) (title : Str) : ChapterBuilder :=
  { book_builder := b, chapter := { title := title, sections := [] } }

/-- Model of `BookBuilder::build` (book.rs lines 156-158). -/
def BookBuilder.build (b : BookBuilder) : Book := b.book

/-- Model of `ChapterBuilder::section` (book.rs lines 167-175). -/
def ChapterBuilder.«section» (cb : ChapterBuilder) (title : Str) : SectionBuilder :=
  { chapter_builder := cb, «section» := { title := title, subsections := [] } }

/-- Model of `ChapterBuilder::add` (book.rs lines 177-180): append the
completed chapter to the parent book builder and return it. -/
def ChapterBuilder.add (cb : ChapterBuilder) : BookBuilder :=
  { book := { cb.book_builder.book with
      chapters := cb.book_builder.book.chapters ++ [cb.chapter] } }

/-- Model of `SectionBuilder::subsection` (book.rs lines 189-195). -/
def SectionBuilder.subsection (sb : SectionBuilder) (title content out_dir : Str) :
    SectionBuilder :=
  { sb with «section» := { sb.«section» with
      subsections := sb.«section».subsections ++ [⟨title, content, out_dir⟩] } }

/-- Model of `SectionBuilder::add` (book.rs lines 197-200): append the
completed section to the parent chapter builder and return it. -/
def SectionBuilder.add (sb : SectionBuilder) : ChapterBuilder :=
  { sb.chapter_builder with chapter := { sb.chapter_builder.chapter with
      sections := sb.chapter_builder.chapter.sections ++ [sb.«section»] } }

/-! ## Lemmas about digits and tokens -/

theorem natStrAux_mem {P : Char → Prop} (hd : ∀ k, k < 10 → P (Nat.digitChar k)) :
    ∀ (f n : Nat) (acc : Str), (∀ c ∈ acc, P c) → ∀ c ∈ natStrAux f n acc, P c := by
  intro f
  induction f with
  | zero => exact fun n acc hacc c hc => hacc c hc
  | succ f ih =>
    intro n acc hacc c hc
    simp only [natStrAux] at hc
    by_cases h : n < 10
    · rw [if_pos h] at hc
      rcases List.mem_cons.mp hc with rfl | hc
      · exact hd n h
      · exact hacc c hc
    · rw [if_neg h] at hc
      refine ih (n / 10) _ ?_ c hc
      intro d hd'
      rcases List.mem_cons.mp hd' with rfl | hd'
      · exact hd _ (Nat.mod_lt _ (by omega))
      · exact hacc d hd'

theorem natStr_digit (n : Nat) : ∀ c ∈ natStr n, 48 ≤ c.toNat ∧ c.toNat ≤ 57 :=
  natStrAux_mem (by intro k hk; interval_cases k <;> decide) (n + 1) n [] (by simp)

theorem natStrAux_ne_nil : ∀ (f n : Nat) (acc : Str), acc ≠ [] → natStrAux f n acc ≠ [] := by
  intro f
  induction f with
  | zero => exact fun n acc h => h
  | succ f ih =>
    intro n acc h
    simp only [natStrAux]
    by_cases hn : n < 10
    · simp [hn]
    · rw [if_neg hn]
      exact ih _ _ (by simp)

theorem natStr_ne_nil (n : Nat) : natStr n ≠ [] := by
  unfold natStr natStrAux
  by_cases hn : n < 10
  · simp [hn]
  · rw [if_neg hn]
    exact natStrAux_ne_nil _ _ _ (by simp)

theorem refString_mem {ci si ui : Nat} : ∀ c ∈ refString ci si ui, 46 ≤ c.toNat ∧ c.toNat ≤ 57 := by
  intro c hc
  have h : c ∈ natStr ci ∨ c = '.' ∨ c ∈ natStr si ∨ c = '.' ∨ c ∈ natStr ui := by
    simpa [refString] using hc
  rcases h with h | h | h | h | h
  · have := natStr_digit ci c h; omega
  · subst h; decide
  · have := natStr_digit si c h; omega
  · subst h; decide
  · have := natStr_digit ui c h; omega

theorem refString_ne_nil {ci si ui : Nat} : refString ci si ui ≠ [] := by
  simp [refString]

theorem refToken_char : ∀ c ∈ refToken, c.toNat < 46 ∨ 57 < c.toNat := by decide

theorem refString_disjoint {ci si ui : Nat} : ∀ c ∈ refString ci si ui, c ∉ refToken := by
  intro c hc hmem
  have h1 := refString_mem c hc
  have h2 := refToken_char c hmem
  omega

/-! ## Lemmas about the replace model -/

theorem containsStr_append_head {p₀ : Char} {pt : Str} :
    ∀ (a b : Str), containsStr (a ++ b) (p₀ :: pt) = true →
      p₀ ∈ a ∨ containsStr b (p₀ :: pt) = true := by
  intro a
  induction a with
  | nil => exact fun b h => Or.inr h
  | cons c a ih =>
    intro b h
    simp only [List.cons_append, containsStr, Bool.or_eq_true] at h
    rcases h with h | h
    · rw [List.isPrefixOf_cons₂, Bool.and_eq_true, beq_iff_eq] at h
      exact Or.inl (h.1 ▸ List.mem_cons_self _ _)
    · rcases ih b h with h | h
      · exact Or.inl (List.mem_cons_of_mem _ h)
      · exact Or.inr h

theorem prefix_replaceFuel_transfer {pat rep : Str}
    (hrep : rep ≠ []) (hdisj : ∀ c ∈ rep, c ∉ pat) :
    ∀ (f : Nat) (s q : Str), s.length ≤ f → q ≠ [] → (∀ c ∈ q, c ∈ pat) →
      q.isPrefixOf (replaceFuel f s pat rep) = true → q.isPrefixOf s = true := by
  intro f
  induction f with
  | zero =>
    intro s q hf hq _ hpre
    interval_cases hs : s.length
    rw [List.length_eq_zero] at hs
    subst hs
    obtain ⟨q₀, qt, rfl⟩ := List.exists_cons_of_ne_nil hq
    simp [replaceFuel] at hpre
  | succ f ih =>
    intro s q hf hq hsub hpre
    match s with
    | [] =>
      obtain ⟨q₀, qt, rfl⟩ := List.exists_cons_of_ne_nil hq
      simp [replaceFuel] at hpre
    | c :: rest =>
      rw [replaceFuel] at hpre
      by_cases hm : pat.isPrefixOf (c :: rest)
      · rw [if_pos hm] at hpre
        obtain ⟨q₀, qt, rfl⟩ := List.exists_cons_of_ne_nil hq
        obtain ⟨r₀, rt, rfl⟩ := List.exists_cons_of_ne_nil hrep
        rw [List.cons_append, List.isPrefixOf_cons₂, Bool.and_eq_true, beq_iff_eq] at hpre
        exact absurd (hsub q₀ (List.mem_cons_self _ _))
          (hpre.1 ▸ hdisj r₀ (List.mem_cons_self _ _))
      · rw [if_neg hm] at hpre
        obtain ⟨q₀, qt, rfl⟩ := List.exists_cons_of_ne_nil hq
        rw [List.isPrefixOf_cons₂, Bool.and_eq_true] at hpre
        rw [List.isPrefixOf_cons₂, Bool.and_eq_true]
        refine ⟨hpre.1, ?_⟩
        rcases eq_or_ne qt [] with rfl | hqt
        · simp
        · exact ih rest qt (by simpa using Nat.le_of_succ_le_succ (by simpa using hf))
            hqt (fun d hd => hsub d (List.mem_cons_of_mem _ hd)) hpre.2

theorem containsStr_replaceFuel_disjoint {pat rep : Str}
    (hpat : pat ≠ []) (hrep : rep ≠ []) (hdisj : ∀ c ∈ rep, c ∉ pat) :
    ∀ (f : Nat) (s : Str), s.length ≤ f →
      containsStr (replaceFuel f s pat rep) pat = false := by
  intro f
  induction f with
  | zero =>
    intro s hf
    rw [Nat.le_zero, List.length_eq_zero] at hf
    subst hf
    obtain ⟨p₀, pt, rfl⟩ := List.exists_cons_of_ne_nil hpat
    simp [replaceFuel, containsStr]
  | succ f ih =>
    intro s hf
    obtain ⟨p₀, pt, hpeq⟩ := List.exists_cons_of_ne_nil hpat
    match s with
    | [] =>
      subst hpeq
      simp [replaceFuel, containsStr]
    | c :: rest =>
      rw [replaceFuel]
      by_cases hm : pat.isPrefixOf (c :: rest)
      · rw [if_pos hm]
        by_contra hcon
        rw [Bool.not_eq_false] at hcon
        rw [hpeq] at hcon
        rcases containsStr_append_head rep _ hcon with h | h
        · exact hdisj p₀ h (hpeq ▸ List.mem_cons_self _ _)
        · rw [← hpeq] at h
          have hr : rest.length ≤ f := Nat.le_of_succ_le_succ (by simpa using hf)
          have := ih (rest.drop (pat.length - 1)) (by simp; omega)
          simp [this] at h
      · rw [if_neg hm]
        have hrest : containsStr (replaceFuel f rest pat rep) pat = false :=
          ih rest (Nat.le_of_succ_le_succ (by simpa using hf))
        subst hpeq
        simp only [containsStr, Bool.or_eq_false_iff]
        refine ⟨?_, hrest⟩
        by_contra hcon
        rw [Bool.not_eq_false, List.isPrefixOf_cons₂, Bool.and_eq_true] at hcon
        rcases eq_or_ne pt [] with rfl | hpt
        · exact hm (by rw [List.isPrefixOf_cons₂, Bool.and_eq_true]; exact ⟨hcon.1, by simp⟩)
        · have := prefix_replaceFuel_transfer hrep hdisj f rest pt
            (Nat.le_of_succ_le_succ (by simpa using hf)) hpt
            (fun d hd => List.mem_cons_of_mem _ hd) hcon.2
          exact hm (by rw [List.isPrefixOf_cons₂, Bool.and_eq_true]; exact ⟨hcon.1, this⟩)

theorem containsStr_replaceStr_disjoint {pat rep : Str}
    (hpat : pat ≠ []) (hrep : rep ≠ []) (hdisj : ∀ c ∈ rep, c ∉ pat) (s : Str) :
    containsStr (replaceStr s pat rep) pat = false :=
  containsStr_replaceFuel_disjoint hpat hrep hdisj s.length s le_rfl

theorem replaceFuel_of_not_contains {pat rep : Str} :
    ∀ (f : Nat) (s : Str), s.length ≤ f → containsStr s pat = false →
      replaceFuel f s pat rep = s := by
  intro f
  induction f with
  | zero =>
    intro s hf _
    rw [Nat.le_zero, List.length_eq_zero] at hf
    subst hf
    rfl
  | succ f ih =>
    intro s hf hc
    match s with
    | [] => rfl
    | c :: rest =>
      simp only [containsStr, Bool.or_eq_false_iff] at hc
      rw [replaceFuel, if_neg (by simp [hc.1])]
      rw [ih rest (Nat.le_of_succ_le_succ (by simpa using hf)) hc.2]

theorem replaceStr_of_not_contains {pat rep : Str} (s : Str)
    (hc : containsStr s pat = false) : replaceStr s pat rep = s :=
  replaceFuel_of_not_contains s.length s le_rfl hc

theorem single_prefix_transfer_demote {a : Char} (ha : a ≠ '\n') :
    ∀ (f : Nat) (s : Str),
      List.isPrefixOf [a] (replaceFuel f s ['\n', '#', ' '] ['\n', '#', '#', '#', ' ']) = true →
      List.isPrefixOf [a] s = true := by
  intro f s hpre
  match f, s with
  | 0, [] => exact hpre
  | 0, c :: rest => exact hpre
  | f + 1, [] => simp [replaceFuel] at hpre
  | f + 1, c :: rest =>
    rw [replaceFuel] at hpre
    by_cases hm : List.isPrefixOf ['\n', '#', ' '] (c :: rest) = true
    · rw [if_pos hm] at hpre
      rw [List.cons_append, List.isPrefixOf_cons₂, Bool.and_eq_true, beq_iff_eq] at hpre
      exact absurd hpre.1 ha
    · rw [if_neg hm] at hpre
      rw [List.isPrefixOf_cons₂, Bool.and_eq_true] at hpre
      rw [List.isPrefixOf_cons₂, Bool.and_eq_true]
      exact ⟨hpre.1, by simp⟩

theorem hashSpace_prefix_transfer_demote :
    ∀ (f : Nat) (s : Str),
      List.isPrefixOf ['#', ' '] (replaceFuel f s ['\n', '#', ' '] ['\n', '#', '#', '#', ' ']) = true →
      List.isPrefixOf ['#', ' '] s = true := by
  intro f s hpre
  match f, s with
  | 0, [] => exact hpre
  | 0, c :: rest => exact hpre
  | f + 1, [] => simp [replaceFuel] at hpre
  | f + 1, c :: rest =>
    rw [replaceFuel] at hpre
    by_cases hm : List.isPrefixOf ['\n', '#', ' '] (c :: rest) = true
    · rw [if_pos hm] at hpre
      rw [List.cons_append, List.isPrefixOf_cons₂, Bool.and_eq_true, beq_iff_eq] at hpre
      exact absurd hpre.1 (by decide)
    · rw [if_neg hm] at hpre
      rw [List.isPrefixOf_cons₂, Bool.and_eq_true] at hpre
      rw [List.isPrefixOf_cons₂, Bool.and_eq_true]
      refine ⟨hpre.1, single_prefix_transfer_demote (by decide) f rest hpre.2⟩

theorem containsStr_replaceFuel_demote :
    ∀ (f : Nat) (s : Str), s.length ≤ f →
      containsStr (replaceFuel f s ['\n', '#', ' '] ['\n', '#', '#', '#', ' ']) ['\n', '#', ' '] = false := by
  intro f
  induction f with
  | zero =>
    intro s hf
    rw [Nat.le_zero, List.length_eq_zero] at hf
    subst hf
    rfl
  | succ f ih =>
    intro s hf
    match s with
    | [] => rfl
    | c :: rest =>
      have hr : rest.length ≤ f := Nat.le_of_succ_le_succ (by simpa using hf)
      rw [replaceFuel]
      by_cases hm : List.isPrefixOf ['\n', '#', ' '] (c :: rest) = true
      · rw [if_pos hm]
        have hR := ih (rest.drop (['\n', '#', ' '].length - 1)) (by simp; omega)
        simp only [List.cons_append, List.nil_append]
        simp +decide [containsStr, List.isPrefixOf_cons₂]
        simpa using hR
      · rw [if_neg hm]
        simp only [containsStr, Bool.or_eq_false_iff]
        refine ⟨?_, ih rest hr⟩
        by_contra hcon
        rw [Bool.not_eq_false, List.isPrefixOf_cons₂, Bool.and_eq_true] at hcon
        have := hashSpace_prefix_transfer_demote f rest hcon.2
        exact hm (by rw [List.isPrefixOf_cons₂, Bool.and_eq_true]; exact ⟨hcon.1, this⟩)

theorem containsStr_replaceStr_demote (s : Str) :
    containsStr (replaceStr s (str "\n# ") (str "\n### ")) (str "\n# ") = false :=
  containsStr_replaceFuel_demote s.length s le_rfl

theorem containsStr_substitute_demote (ci si ui : Nat) (dir content : Str) :
    containsStr (substitute ci si ui dir content) (str "\n# ") = false :=
  containsStr_replaceStr_demote _

/-! ## Specification-side description of a successful render

`specLog` lists, purely as a function of the book and the readable file
contents, exactly the filesystem events a fully successful render performs,
with every emitted number derived from the 1-based position of the node in
its parent's sequence. -/

/-- Path of the rendered markdown file of a section. -/
def secPathOf (srcDir : Str) (sec : Section) : Str :=
  pjoin srcDir (to_tag sec.title ++ str ".md")

/-- Events of the subsection loop of a successful render. -/
def specSubs (r : Str → Option Str) (secPath : Str) (ci si : Nat) :
    List SubSection → Nat → List Ev
  | [], _ => []
  | sub :: rest, ui =>
    Ev.write secPath (str "## Exercise " ++ refString ci si ui ++ str ": " ++ sub.title ++ str "\n\n")
      :: Ev.write secPath (trimStr (substitute ci si ui sub.out_dir ((r sub.content).getD [])) ++ str "\n")
      :: specSubs r secPath ci si rest (ui + 1)

/-- Events of the section loop of a successful render. -/
def specSecs (r : Str → Option Str) (srcDir sumPath : Str) (ci : Nat) :
    List Section → Nat → List Ev
  | [], _ => []
  | sec :: rest, si =>
    let fname := to_tag sec.title ++ str ".md"
    let secPath := pjoin srcDir fname
    Ev.write sumPath (str "\t- [" ++ sec.title ++ str "](" ++ fname ++ str ")\n")
      :: Ev.create secPath
      :: Ev.write secPath (str "# Unit " ++ natStr ci ++ '.' :: natStr si ++ str " - " ++ sec.title ++ str "\n\n")
      :: (specSubs r secPath ci si sec.subsections 1 ++ specSecs r srcDir sumPath ci rest (si + 1))

/-- Events of the chapter loop of a successful render. -/
def specChaps (r : Str → Option Str) (srcDir sumPath : Str) : List Chapter → Nat → List Ev
  | [], _ => []
  | ch :: rest, ci =>
    Ev.write sumPath (str "- [" ++ ch.title ++ str "]()\n")
      :: (specSecs r srcDir sumPath ci ch.sections 1
          ++ Ev.write sumPath (str "\n") :: specChaps r srcDir sumPath rest (ci + 1))

/-- Full event log of a successful render. -/
def specLog (b : Book) (out_dir : Str) (r : Str → Option Str) : List Ev :=
  let bookOutDir := pjoin out_dir (str "book")
  let bookSrcDir := pjoin bookOutDir (str "src")
  let sumPath := pjoin bookSrcDir (str "SUMMARY.md")
  Ev.mkdir bookSrcDir
    :: Ev.create (pjoin bookOutDir (str "book.toml"))
    :: Ev.write (pjoin bookOutDir (str "book.toml")) bookTomlPayload
    :: Ev.create sumPath
    :: Ev.write sumPath (str "# Summary\n\n")
    :: specChaps r bookSrcDir sumPath b.chapters 1

/-- All primitive I/O operations that a render of `b` into `out_dir`
attempts: directory creation, the two fixed files, each section file's
creation and writes, and each subsection content read. -/
def allIOOk (b : Book) (out_dir : Str) (w : World) : Prop :=
  let bookOutDir := pjoin out_dir (str "book")
  let bookSrcDir := pjoin bookOutDir (str "src")
  let tomlPath := pjoin bookOutDir (str "book.toml")
  let sumPath := pjoin bookSrcDir (str "SUMMARY.md")
  w.dirOk bookSrcDir = true ∧ w.createOk tomlPath = true ∧ w.writeOk tomlPath = true ∧
    w.createOk sumPath = true ∧ w.writeOk sumPath = true ∧
    ∀ ch ∈ b.chapters, ∀ sec ∈ ch.sections,
      (w.createOk (secPathOf bookSrcDir sec) = true ∧
        w.writeOk (secPathOf bookSrcDir sec) = true) ∧
      ∀ sub ∈ sec.subsections, (w.read sub.content).isSome = true

instance allIOOk.decidable (b : Book) (d : Str) (w : World) : Decidable (allIOOk b d w) := by
  unfold allIOOk
  infer_instance

/-! ## Refinement: a fully successful render produces exactly `specLog` -/

theorem renderSubs_eq_spec {w : World} {secPath : Str} {ci si : Nat}
    (hw : w.writeOk secPath = true) :
    ∀ (subs : List SubSection) (ui : Nat) (l : List Ev),
      (∀ sub ∈ subs, (w.read sub.content).isSome = true) →
      renderSubs w secPath ci si subs ui l =
        (l ++ specSubs w.read secPath ci si subs ui, none) := by
  intro subs
  induction subs with
  | nil => intro ui l _; simp [renderSubs, specSubs]
  | cons sub rest ih =>
    intro ui l hr
    obtain ⟨content, hc⟩ := Option.isSome_iff_exists.mp (hr sub (List.mem_cons_self _ _))
    simp only [renderSubs, hw, if_true, hc]
    rw [ih (ui + 1) _ (fun s hs => hr s (List.mem_cons_of_mem _ hs))]
    simp [specSubs, hc]

theorem renderSecs_eq_spec {w : World} {srcDir sumPath : Str} {ci : Nat}
    (hsum : w.writeOk sumPath = true) :
    ∀ (secs : List Section) (si : Nat) (l : List Ev),
      (∀ sec ∈ secs,
        (w.createOk (secPathOf srcDir sec) = true ∧ w.writeOk (secPathOf srcDir sec) = true) ∧
        ∀ sub ∈ sec.subsections, (w.read sub.content).isSome = true) →
      renderSecs w srcDir sumPath ci secs si l =
        (l ++ specSecs w.read srcDir sumPath ci secs si, none) := by
  intro secs
  induction secs with
  | nil => intro si l _; simp [renderSecs, specSecs]
  | cons sec rest ih =>
    intro si l hops
    obtain ⟨⟨hcr, hwr⟩, hrd⟩ := hops sec (List.mem_cons_self _ _)
    simp only [secPathOf] at hcr hwr
    simp only [renderSecs, hsum, if_true, hcr, hwr]
    rw [renderSubs_eq_spec hwr sec.subsections 1 _ hrd]
    dsimp only
    rw [ih (si + 1) _ (fun s hs => hops s (List.mem_cons_of_mem _ hs))]
    simp [specSecs]

theorem renderChaps_eq_spec {w : World} {srcDir sumPath : Str}
    (hsum : w.writeOk sumPath = true) :
    ∀ (chaps : List Chapter) (ci : Nat) (l : List Ev),
      (∀ ch ∈ chaps, ∀ sec ∈ ch.sections,
        (w.createOk (secPathOf srcDir sec) = true ∧ w.writeOk (secPathOf srcDir sec) = true) ∧
        ∀ sub ∈ sec.subsections, (w.read sub.content).isSome = true) →
      renderChaps w srcDir sumPath chaps ci l =
        (l ++ specChaps w.read srcDir sumPath chaps ci, none) := by
  intro chaps
  induction chaps with
  | nil => intro ci l _; simp [renderChaps, specChaps]
  | cons ch rest ih =>
    intro ci l hops
    simp only [renderChaps, hsum, if_true]
    rw [renderSecs_eq_spec hsum ch.sections 1 _ (hops ch (List.mem_cons_self _ _))]
    dsimp only
    rw [ih (ci + 1) _ (fun c hc => hops c (List.mem_cons_of_mem _ hc))]
    simp [specChaps]

/-- Refinement: under `allIOOk`, `Book::render` succeeds and its event log is
exactly `specLog`. -/
theorem render_eq_spec {b : Book} {out_dir : Str} {w : World} (h : allIOOk b out_dir w) :
    Book.render b out_dir w = (specLog b out_dir w.read, none) := by
  obtain ⟨hdir, hct, hwt, hcs, hws, hops⟩ := h
  simp only [Book.render, hdir, hct, hwt, hcs, hws, if_true]
  rw [renderChaps_eq_spec hws b.chapters 1 _ hops]
  simp [specLog]

/-! ## A successful render implies every attempted operation succeeded -/

theorem renderSubs_ok_reads {w : World} {secPath : Str} {ci si : Nat} :
    ∀ (subs : List SubSection) (ui : Nat) (l : List Ev),
      (renderSubs w secPath ci si subs ui l).2 = none →
      ∀ sub ∈ subs, (w.read sub.content).isSome = true := by
  intro subs
  induction subs with
  | nil => intro ui l _ sub h; simp at h
  | cons sub rest ih =>
    intro ui l hok
    by_cases hw : w.writeOk secPath = true
    · cases hread : w.read sub.content with
      | none => simp [renderSubs, hw, hread] at hok
      | some content =>
        simp only [renderSubs, hw, hread, if_true] at hok
        intro s hs
        rcases List.mem_cons.mp hs with rfl | hs
        · simp [hread]
        · exact ih (ui + 1) _ hok s hs
    · simp [renderSubs, hw] at hok

theorem renderSecs_ok_ops {w : World} {srcDir sumPath : Str} {ci : Nat} :
    ∀ (secs : List Section) (si : Nat) (l : List Ev),
      (renderSecs w srcDir sumPath ci secs si l).2 = none →
      ∀ sec ∈ secs,
        (w.createOk (secPathOf srcDir sec) = true ∧ w.writeOk (secPathOf srcDir sec) = true) ∧
        ∀ sub ∈ sec.subsections, (w.read sub.content).isSome = true := by
  intro secs
  induction secs with
  | nil => intro si l _ sec h; simp at h
  | cons sec rest ih =>
    intro si l hok
    by_cases hsum : w.writeOk sumPath = true
    · by_cases hcr : w.createOk (pjoin srcDir (to_tag sec.title ++ str ".md")) = true
      · by_cases hwr : w.writeOk (pjoin srcDir (to_tag sec.title ++ str ".md")) = true
        · simp only [renderSecs, hsum, hcr, hwr, if_true] at hok
          split at hok
          case _ l₂ heq =>
            intro s hs
            rcases List.mem_cons.mp hs with rfl | hs
            · refine ⟨⟨by simpa [secPathOf] using hcr, by simpa [secPathOf] using hwr⟩, ?_⟩
              exact renderSubs_ok_reads s.subsections 1 _ (by simpa using congrArg Prod.snd heq)
            · exact ih (si + 1) _ hok s hs
          case _ l₂ e heq => simp at hok
        · simp [renderSecs, hsum, hcr, hwr] at hok
      · simp [renderSecs, hsum, hcr] at hok
    · simp [renderSecs, hsum] at hok

theorem renderChaps_ok_ops {w : World} {srcDir sumPath : Str} :
    ∀ (chaps : List Chapter) (ci : Nat) (l : List Ev),
      (renderChaps w srcDir sumPath chaps ci l).2 = none →
      ∀ ch ∈ chaps, ∀ sec ∈ ch.sections,
        (w.createOk (secPathOf srcDir sec) = true ∧ w.writeOk (secPathOf srcDir sec) = true) ∧
        ∀ sub ∈ sec.subsections, (w.read sub.content).isSome = true := by
  intro chaps
  induction chaps with
  | nil => intro ci l _ ch h; simp at h
  | cons ch rest ih =>
    intro ci l hok
    by_cases hsum : w.writeOk sumPath = true
    · simp only [renderChaps, hsum, if_true] at hok
      split at hok
      case _ l₂ heq =>
        intro c hc
        rcases List.mem_cons.mp hc with rfl | hc
        · exact renderSecs_ok_ops c.sections 1 _ (by simpa using congrArg Prod.snd heq)
        · exact ih (ci + 1) _ hok c hc
      case _ l₂ e heq => simp at hok
    · simp [renderChaps, hsum] at hok

/-- A render that returns no error attempted and succeeded at every
operation listed in `allIOOk`. -/
theorem render_ok_allIOOk {b : Book} {out_dir : Str} {w : World}
    (hok : (Book.render b out_dir w).2 = none) : allIOOk b out_dir w := by
  by_cases hdir : w.dirOk (pjoin (pjoin out_dir (str "book")) (str "src")) = true
  · by_cases hct : w.createOk (pjoin (pjoin out_dir (str "book")) (str "book.toml")) = true
    · by_cases hwt : w.writeOk (pjoin (pjoin out_dir (str "book")) (str "book.toml")) = true
      · by_cases hcs : w.createOk
            (pjoin (pjoin (pjoin out_dir (str "book")) (str "src")) (str "SUMMARY.md")) = true
        · by_cases hws : w.writeOk
              (pjoin (pjoin (pjoin out_dir (str "book")) (str "src")) (str "SUMMARY.md")) = true
          · simp only [Book.render, hdir, hct, hwt, hcs, hws, if_true] at hok
            exact ⟨hdir, hct, hwt, hcs, hws, renderChaps_ok_ops b.chapters 1 _ hok⟩
          · simp [Book.render, hdir, hct, hwt, hcs, hws] at hok
        · simp [Book.render, hdir, hct, hwt, hcs] at hok
      · simp [Book.render, hdir, hct, hwt] at hok
    · simp [Book.render, hdir, hct] at hok
  · simp [Book.render, hdir] at hok

/-! ## The event log never exceeds the successful log

Whatever fails, the operations performed before the first failure coincide
with an initial segment of `specLog`: the first failure aborts the render
with no retry and no further writes. -/

theorem renderSubs_log_pre {w : World} {secPath : Str} {ci si : Nat} :
    ∀ (subs : List SubSection) (ui : Nat) (l : List Ev),
      (renderSubs w secPath ci si subs ui l).1 <+:
        l ++ specSubs w.read secPath ci si subs ui := by
  intro subs
  induction subs with
  | nil => intro ui l; simp [renderSubs, specSubs]
  | cons sub rest ih =>
    intro ui l
    by_cases hw : w.writeOk secPath = true
    · cases hread : w.read sub.content with
      | none =>
        simp only [renderSubs, hw, hread, if_true, specSubs]
        exact ⟨Ev.write secPath (trimStr (substitute ci si ui sub.out_dir
            (Option.getD none [])) ++ str "
")
          :: specSubs w.read secPath ci si rest (ui + 1), by simp⟩
      | some content =>
        simp only [renderSubs, hw, hread, if_true, specSubs]
        have := ih (ui + 1)
          (l ++ [Ev.write secPath (str "## Exercise " ++ refString ci si ui ++ str ": " ++
              sub.title ++ str "\n\n")] ++
            [Ev.write secPath (trimStr (substitute ci si ui sub.out_dir content) ++ str "\n")])
        simpa [hread, List.append_assoc] using this
    · simp only [renderSubs, hw, if_false, Bool.false_eq_true, specSubs]
      exact List.prefix_append _ _

theorem append_mid_pre {α : Type} (l m t : List α) : l ++ m <+: l ++ (m ++ t) :=
  ⟨t, by simp⟩

theorem renderSecs_log_pre {w : World} {srcDir sumPath : Str} {ci : Nat} :
    ∀ (secs : List Section) (si : Nat) (l : List Ev),
      (renderSecs w srcDir sumPath ci secs si l).1 <+:
        l ++ specSecs w.read srcDir sumPath ci secs si := by
  intro secs
  induction secs with
  | nil => intro si l; simp [renderSecs, specSecs]
  | cons sec rest ih =>
    intro si l
    by_cases hsum : w.writeOk sumPath = true
    · by_cases hcr : w.createOk (pjoin srcDir (to_tag sec.title ++ str ".md")) = true
      · by_cases hwr : w.writeOk (pjoin srcDir (to_tag sec.title ++ str ".md")) = true
        · simp only [renderSecs, hsum, hcr, hwr, if_true, specSecs]
          split
          case _ l₂ heq =>
            have hrd := renderSubs_ok_reads sec.subsections 1 _
              (by simpa using congrArg Prod.snd heq)
            have hspec := @renderSubs_eq_spec w (pjoin srcDir (to_tag sec.title ++ str ".md"))
              ci si hwr sec.subsections 1
              (l ++ [Ev.write sumPath (str "\t- [" ++ sec.title ++ str "](" ++
                  (to_tag sec.title ++ str ".md") ++ str ")\n")] ++
                [Ev.create (pjoin srcDir (to_tag sec.title ++ str ".md"))] ++
                [Ev.write (pjoin srcDir (to_tag sec.title ++ str ".md"))
                  (str "# Unit " ++ natStr ci ++ '.' :: natStr si ++ str " - " ++
                    sec.title ++ str "\n\n")]) hrd
            rw [heq] at hspec
            have hl₂ : l₂ = l ++ [Ev.write sumPath (str "\t- [" ++ sec.title ++ str "](" ++
                  (to_tag sec.title ++ str ".md") ++ str ")\n")] ++
                [Ev.create (pjoin srcDir (to_tag sec.title ++ str ".md"))] ++
                [Ev.write (pjoin srcDir (to_tag sec.title ++ str ".md"))
                  (str "# Unit " ++ natStr ci ++ '.' :: natStr si ++ str " - " ++
                    sec.title ++ str "\n\n")] ++
                specSubs w.read (pjoin srcDir (to_tag sec.title ++ str ".md")) ci si
                  sec.subsections 1 := by
              have := congrArg Prod.fst hspec
              simpa [List.append_assoc] using this
            subst hl₂
            have := ih (si + 1) (l ++ [Ev.write sumPath (str "\t- [" ++ sec.title ++ str "](" ++
                  (to_tag sec.title ++ str ".md") ++ str ")\n")] ++
                [Ev.create (pjoin srcDir (to_tag sec.title ++ str ".md"))] ++
                [Ev.write (pjoin srcDir (to_tag sec.title ++ str ".md"))
                  (str "# Unit " ++ natStr ci ++ '.' :: natStr si ++ str " - " ++
                    sec.title ++ str "\n\n")] ++
                specSubs w.read (pjoin srcDir (to_tag sec.title ++ str ".md")) ci si
                  sec.subsections 1)
            simpa [List.append_assoc] using this
          case _ l₂ e heq =>
            have h1 : l₂ <+: l ++ [Ev.write sumPath (str "\t- [" ++ sec.title ++ str "](" ++
                  (to_tag sec.title ++ str ".md") ++ str ")\n")] ++
                [Ev.create (pjoin srcDir (to_tag sec.title ++ str ".md"))] ++
                [Ev.write (pjoin srcDir (to_tag sec.title ++ str ".md"))
                  (str "# Unit " ++ natStr ci ++ '.' :: natStr si ++ str " - " ++
                    sec.title ++ str "\n\n")] ++
                specSubs w.read (pjoin srcDir (to_tag sec.title ++ str ".md")) ci si
                  sec.subsections 1 := by
              have := @renderSubs_log_pre w (pjoin srcDir (to_tag sec.title ++ str ".md"))
                ci si sec.subsections 1
                (l ++ [Ev.write sumPath (str "\t- [" ++ sec.title ++ str "](" ++
                    (to_tag sec.title ++ str ".md") ++ str ")\n")] ++
                  [Ev.create (pjoin srcDir (to_tag sec.title ++ str ".md"))] ++
                  [Ev.write (pjoin srcDir (to_tag sec.title ++ str ".md"))
                    (str "# Unit " ++ natStr ci ++ '.' :: natStr si ++ str " - " ++
                      sec.title ++ str "\n\n")])
              rw [heq] at this
              simpa [List.append_assoc] using this
            refine List.IsPrefix.trans h1 ?_
            refine List.IsPrefix.trans (List.prefix_append _
              (specSecs w.read srcDir sumPath ci rest (si + 1))) ?_
            simp [List.append_assoc]
        · simp only [renderSecs, hsum, hcr, hwr, if_false, Bool.false_eq_true, specSecs]
          simpa [List.append_assoc] using append_mid_pre l
            [Ev.write sumPath (str "\t- [" ++ sec.title ++ str "](" ++
                (to_tag sec.title ++ str ".md") ++ str ")\n"),
              Ev.create (pjoin srcDir (to_tag sec.title ++ str ".md"))] _
      · simp only [renderSecs, hsum, hcr, if_false, Bool.false_eq_true, specSecs]
        simpa [List.append_assoc] using append_mid_pre l
          [Ev.write sumPath (str "\t- [" ++ sec.title ++ str "](" ++
              (to_tag sec.title ++ str ".md") ++ str ")\n")] _
    · simp only [renderSecs, hsum, if_false, Bool.false_eq_true, specSecs]
      exact List.prefix_append _ _

theorem renderChaps_log_pre {w : World} {srcDir sumPath : Str} :
    ∀ (chaps : List Chapter) (ci : Nat) (l : List Ev),
      (renderChaps w srcDir sumPath chaps ci l).1 <+:
        l ++ specChaps w.read srcDir sumPath chaps ci := by
  intro chaps
  induction chaps with
  | nil => intro ci l; simp [renderChaps, specChaps]
  | cons ch rest ih =>
    intro ci l
    by_cases hsum : w.writeOk sumPath = true
    · simp only [renderChaps, hsum, if_true, specChaps]
      split
      case _ l₂ heq =>
        have hops := renderSecs_ok_ops ch.sections 1 _
          (by simpa using congrArg Prod.snd heq)
        have hspec := @renderSecs_eq_spec w srcDir sumPath ci hsum ch.sections 1
          (l ++ [Ev.write sumPath (str "- [" ++ ch.title ++ str "]()\n")]) hops
        rw [heq] at hspec
        have hl₂ : l₂ = l ++ [Ev.write sumPath (str "- [" ++ ch.title ++ str "]()\n")] ++
            specSecs w.read srcDir sumPath ci ch.sections 1 := by
          have := congrArg Prod.fst hspec
          simpa [List.append_assoc] using this
        subst hl₂
        have := ih (ci + 1) (l ++ [Ev.write sumPath (str "- [" ++ ch.title ++ str "]()\n")] ++
            specSecs w.read srcDir sumPath ci ch.sections 1 ++ [Ev.write sumPath (str "\n")])
        simpa [List.append_assoc] using this
      case _ l₂ e heq =>
        have h1 : l₂ <+: l ++ [Ev.write sumPath (str "- [" ++ ch.title ++ str "]()\n")] ++
            specSecs w.read srcDir sumPath ci ch.sections 1 := by
          have := @renderSecs_log_pre w srcDir sumPath ci ch.sections 1
            (l ++ [Ev.write sumPath (str "- [" ++ ch.title ++ str "]()\n")])
          rw [heq] at this
          simpa [List.append_assoc] using this
        refine List.IsPrefix.trans h1 ?_
        refine List.IsPrefix.trans (List.prefix_append _
          (Ev.write sumPath (str "\n") :: specChaps w.read srcDir sumPath rest (ci + 1))) ?_
        simp [List.append_assoc]
    · simp only [renderChaps, hsum, if_false, Bool.false_eq_true, specChaps]
      exact List.prefix_append _ _

/-- Whatever fails, the log of a render is an initial segment of the
successful log `specLog`: nothing is retried and nothing is written past the
first failure. -/
theorem render_log_pre (b : Book) (out_dir : Str) (w : World) :
    (Book.render b out_dir w).1 <+: specLog b out_dir w.read := by
  by_cases hdir : w.dirOk (pjoin (pjoin out_dir (str "book")) (str "src")) = true
  · by_cases hct : w.createOk (pjoin (pjoin out_dir (str "book")) (str "book.toml")) = true
    · by_cases hwt : w.writeOk (pjoin (pjoin out_dir (str "book")) (str "book.toml")) = true
      · by_cases hcs : w.createOk
            (pjoin (pjoin (pjoin out_dir (str "book")) (str "src")) (str "SUMMARY.md")) = true
        · by_cases hws : w.writeOk
              (pjoin (pjoin (pjoin out_dir (str "book")) (str "src")) (str "SUMMARY.md")) = true
          · simp only [Book.render, hdir, hct, hwt, hcs, hws, if_true, specLog]
            have := @renderChaps_log_pre w (pjoin (pjoin out_dir (str "book")) (str "src"))
              (pjoin (pjoin (pjoin out_dir (str "book")) (str "src")) (str "SUMMARY.md"))
              b.chapters 1
              [Ev.mkdir (pjoin (pjoin out_dir (str "book")) (str "src")),
                Ev.create (pjoin (pjoin out_dir (str "book")) (str "book.toml")),
                Ev.write (pjoin (pjoin out_dir (str "book")) (str "book.toml")) bookTomlPayload,
                Ev.create (pjoin (pjoin (pjoin out_dir (str "book")) (str "src")) (str "SUMMARY.md")),
                Ev.write (pjoin (pjoin (pjoin out_dir (str "book")) (str "src")) (str "SUMMARY.md"))
                  (str "# Summary\n\n")]
            simpa [List.append_assoc] using this
          · simp only [Book.render, hdir, hct, hwt, hcs, hws, if_false, Bool.false_eq_true, specLog]
            exact ⟨_, rfl⟩
        · simp only [Book.render, hdir, hct, hwt, hcs, if_false, Bool.false_eq_true, specLog]
          exact ⟨_, rfl⟩
      · simp only [Book.render, hdir, hct, hwt, if_false, Bool.false_eq_true, specLog]
        exact ⟨_, rfl⟩
    · simp only [Book.render, hdir, hct, if_false, Bool.false_eq_true, specLog]
      exact ⟨_, rfl⟩
  · simp only [Book.render, hdir, if_false, Bool.false_eq_true, specLog]
    exact ⟨_, rfl⟩

/-! ## Character facts about slugs and paths -/

theorem toNat_ofNat_valid {n : Nat} (h : n.isValidChar) : (Char.ofNat n).toNat = n := by
  rw [Char.ofNat, dif_pos h]
  rfl

theorem tagChar_range (c : Char) :
    (tagChar c).toNat = 45 ∨ (48 ≤ (tagChar c).toNat ∧ (tagChar c).toNat ≤ 57) ∨
      (97 ≤ (tagChar c).toNat ∧ (tagChar c).toNat ≤ 122) := by
  rw [tagChar]
  by_cases h1 : 48 ≤ c.toNat ∧ c.toNat ≤ 57
  · rw [if_pos h1]; omega
  · rw [if_neg h1]
    by_cases h2 : 97 ≤ c.toNat ∧ c.toNat ≤ 122
    · rw [if_pos h2]; omega
    · rw [if_neg h2]
      by_cases h3 : 65 ≤ c.toNat ∧ c.toNat ≤ 90
      · rw [if_pos h3]
        have hv : (c.toNat + 32).isValidChar := Or.inl (by omega)
        rw [toNat_ofNat_valid hv]
        omega
      · rw [if_neg h3]
        exact Or.inl (by decide)

theorem to_tag_range : ∀ t : Str, ∀ c ∈ to_tag t, c.toNat = 45 ∨
    (48 ≤ c.toNat ∧ c.toNat ≤ 57) ∨ (97 ≤ c.toNat ∧ c.toNat ≤ 122) := by
  intro t c hc
  obtain ⟨x, _, rfl⟩ := List.mem_map.mp hc
  exact tagChar_range x

theorem nl_not_mem_to_tag (t : Str) : '\n' ∉ to_tag t :=
  fun h => absurd (to_tag_range t '\n' h) (by decide)

theorem to_tag_md_ne_summary (t : Str) : to_tag t ++ str ".md" ≠ str "SUMMARY.md" := by
  cases t with
  | nil =>
    intro h
    have := congrArg List.length h
    simp [to_tag, str] at this
  | cons c rest =>
    intro h
    have hhd : tagChar c = 'S' := by
      have : tagChar c :: (to_tag rest ++ str ".md") = 'S' :: str "UMMARY.md" := by
        simpa [to_tag, str] using h
      exact (List.cons.injEq _ _ _ _ ▸ this).1
    have hr := tagChar_range c
    rw [hhd] at hr
    revert hr
    decide

/-- Output directory scaffolding paths of a render into `d`. -/
def srcDirOf (d : Str) : Str := pjoin (pjoin d (str "book")) (str "src")

/-- Path of the generated `book.toml`. -/
def tomlPathOf (d : Str) : Str := pjoin (pjoin d (str "book")) (str "book.toml")

/-- Path of the generated `SUMMARY.md`. -/
def sumPathOf (d : Str) : Str := pjoin (srcDirOf d) (str "SUMMARY.md")

theorem sumPath_ne_toml (d : Str) : sumPathOf d ≠ tomlPathOf d := by
  intro h
  have hlen := congrArg List.length h
  have e1 : (str "book").length = 4 := rfl
  have e2 : (str "src").length = 3 := rfl
  have e3 : (str "SUMMARY.md").length = 10 := rfl
  have e4 : (str "book.toml").length = 9 := rfl
  simp only [sumPathOf, srcDirOf, tomlPathOf, pjoin, List.length_append,
    List.length_cons, e1, e2, e3, e4] at hlen
  omega

theorem sumPath_ne_secPath (d : Str) (sec : Section) :
    sumPathOf d ≠ secPathOf (srcDirOf d) sec := by
  intro h
  have h' : srcDirOf d ++ '/' :: str "SUMMARY.md" =
      srcDirOf d ++ '/' :: (to_tag sec.title ++ str ".md") := by
    simpa only [sumPathOf, secPathOf, pjoin] using h
  have h2 := @List.append_cancel_left _ (srcDirOf d) _ _ h'
  have h3 : str "SUMMARY.md" = to_tag sec.title ++ str ".md" := by
    simpa using h2
  exact to_tag_md_ne_summary sec.title h3.symm

/-! ## The content of the rendered `SUMMARY.md` -/

/-- The indented manifest line of a section. -/
def secLine (sec : Section) : Str :=
  str "\t- [" ++ sec.title ++ str "](" ++ (to_tag sec.title ++ str ".md") ++ str ")\n"

/-- The draft manifest line of a chapter (empty link target). -/
def chapLine (ch : Chapter) : Str := str "- [" ++ ch.title ++ str "]()\n"

/-- Manifest lines of a list of sections. -/
def secsStr : List Section → Str
  | [] => []
  | sec :: rest => secLine sec ++ secsStr rest

/-- Manifest blocks of a list of chapters: one chapter line, its section
lines, then a blank separator line. -/
def chapsStr : List Chapter → Str
  | [] => []
  | ch :: rest => chapLine ch ++ secsStr ch.sections ++ str "\n" ++ chapsStr rest

/-- The full content of `SUMMARY.md`: header, blank line, chapter blocks. -/
def summaryStr (b : Book) : Str := str "# Summary\n\n" ++ chapsStr b.chapters

/-- Does an event touch (create or write) the file at `p`? -/
def touches (p : Str) : Ev → Bool
  | Ev.mkdir _ => false
  | Ev.create q => q = p
  | Ev.write q _ => q = p

theorem foldl_applyEv_untouched {p : Str} :
    ∀ (evs : List Ev) (f : Str → Option Str), (∀ e ∈ evs, touches p e = false) →
      evs.foldl applyEv f p = f p := by
  intro evs
  induction evs with
  | nil => intro f _; rfl
  | cons e rest ih =>
    intro f h
    have he := h e (List.mem_cons_self _ _)
    rw [List.foldl_cons, ih _ (fun e' h' => h e' (List.mem_cons_of_mem _ h'))]
    cases e with
    | mkdir q => rfl
    | create q => simp [touches] at he; simp [applyEv, Ne.symm he]
    | write q s => simp [touches] at he; simp [applyEv, Ne.symm he]

theorem specSubs_untouched {r : Str → Option Str} {secPath p : Str} {ci si : Nat}
    (hne : secPath ≠ p) :
    ∀ (subs : List SubSection) (ui : Nat), ∀ e ∈ specSubs r secPath ci si subs ui,
      touches p e = false := by
  intro subs
  induction subs with
  | nil => intro ui e he; simp [specSubs] at he
  | cons sub rest ih =>
    intro ui e he
    simp only [specSubs, List.mem_cons] at he
    rcases he with rfl | rfl | he
    · simp [touches, hne]
    · simp [touches, hne]
    · exact ih (ui + 1) e he

theorem foldl_applyEv_specSecs {r : Str → Option Str} {d : Str} {ci : Nat} :
    ∀ (secs : List Section) (si : Nat) (f : Str → Option Str),
      (specSecs r (srcDirOf d) (sumPathOf d) ci secs si).foldl applyEv f (sumPathOf d) =
        (f (sumPathOf d)).map (· ++ secsStr secs) := by
  intro secs
  induction secs with
  | nil =>
    intro si f
    simp only [specSecs, List.foldl_nil, secsStr]
    cases f (sumPathOf d) <;> simp
  | cons sec rest ih =>
    intro si f
    have hne2 : sumPathOf d ≠ pjoin (srcDirOf d) (to_tag sec.title ++ str ".md") := by
      simpa [secPathOf] using sumPath_ne_secPath d sec
    simp only [specSecs]
    rw [show ∀ (a b c : Ev) (t₁ t₂ : List Ev), a :: b :: c :: (t₁ ++ t₂) =
        (a :: b :: c :: t₁) ++ t₂ from fun a b c t₁ t₂ => by simp]
    rw [List.foldl_append, ih (si + 1)]
    rw [List.foldl_cons, List.foldl_cons, List.foldl_cons]
    rw [foldl_applyEv_untouched _ _
      (specSubs_untouched (Ne.symm hne2) sec.subsections 1)]
    simp only [applyEv, hne2, if_false, if_pos rfl]
    cases f (sumPathOf d) <;> simp [secsStr, secLine, List.append_assoc]

theorem foldl_applyEv_specChaps {r : Str → Option Str} {d : Str} :
    ∀ (chaps : List Chapter) (ci : Nat) (f : Str → Option Str),
      (specChaps r (srcDirOf d) (sumPathOf d) chaps ci).foldl applyEv f (sumPathOf d) =
        (f (sumPathOf d)).map (· ++ chapsStr chaps) := by
  intro chaps
  induction chaps with
  | nil =>
    intro ci f
    simp only [specChaps, List.foldl_nil, chapsStr]
    cases f (sumPathOf d) <;> simp
  | cons ch rest ih =>
    intro ci f
    simp only [specChaps]
    rw [show ∀ (a : Ev) (t₁ : List Ev) (b : Ev) (t₂ : List Ev), a :: (t₁ ++ b :: t₂) =
        ((a :: t₁) ++ [b]) ++ t₂ from fun a t₁ b t₂ => by simp]
    rw [List.foldl_append, List.foldl_append, ih (ci + 1)]
    simp only [List.foldl_cons, List.foldl_nil]
    have hb : applyEv (List.foldl applyEv
        (applyEv f (Ev.write (sumPathOf d) (str "- [" ++ ch.title ++ str "]()\n")))
        (specSecs r (srcDirOf d) (sumPathOf d) ci ch.sections 1))
        (Ev.write (sumPathOf d) (str "\n")) (sumPathOf d) =
        ((List.foldl applyEv
          (applyEv f (Ev.write (sumPathOf d) (str "- [" ++ ch.title ++ str "]()\n")))
          (specSecs r (srcDirOf d) (sumPathOf d) ci ch.sections 1)) (sumPathOf d)).map
            (· ++ str "\n") := by
      simp [applyEv]
    rw [hb, foldl_applyEv_specSecs ch.sections 1]
    have ha : applyEv f (Ev.write (sumPathOf d) (str "- [" ++ ch.title ++ str "]()\n"))
        (sumPathOf d) = (f (sumPathOf d)).map (· ++ chapLine ch) := by
      simp [applyEv, chapLine]
    rw [ha]
    cases f (sumPathOf d) <;> simp [chapsStr, chapLine, List.append_assoc]

/-- The rendered `SUMMARY.md` content of a fully successful render is
exactly `summaryStr`. -/
theorem getFile_specLog_summary (b : Book) (d : Str) (r : Str → Option Str) :
    getFile (specLog b d r) (sumPathOf d) = some (summaryStr b) := by
  have hts : sumPathOf d ≠ tomlPathOf d := sumPath_ne_toml d
  rw [getFile, specLog]
  simp only [show ∀ e : Str, pjoin (pjoin e (str "book")) (str "src") = srcDirOf e
      from fun _ => rfl,
    show ∀ e : Str, pjoin (pjoin e (str "book")) (str "book.toml") = tomlPathOf e
      from fun _ => rfl]
  simp only [show ∀ e : Str, pjoin (srcDirOf e) (str "SUMMARY.md") = sumPathOf e
      from fun _ => rfl]
  rw [show Ev.mkdir (srcDirOf d) :: Ev.create (tomlPathOf d)
      :: Ev.write (tomlPathOf d) bookTomlPayload :: Ev.create (sumPathOf d)
      :: Ev.write (sumPathOf d) (str "# Summary\n\n")
      :: specChaps r (srcDirOf d) (sumPathOf d) b.chapters 1 =
      [Ev.mkdir (srcDirOf d), Ev.create (tomlPathOf d),
        Ev.write (tomlPathOf d) bookTomlPayload, Ev.create (sumPathOf d),
        Ev.write (sumPathOf d) (str "# Summary\n\n")] ++
        specChaps r (srcDirOf d) (sumPathOf d) b.chapters 1 from rfl]
  rw [List.foldl_append]
  rw [foldl_applyEv_specChaps b.chapters 1]
  have hsteps : List.foldl applyEv (fun _ => none)
      [Ev.mkdir (srcDirOf d), Ev.create (tomlPathOf d),
        Ev.write (tomlPathOf d) bookTomlPayload, Ev.create (sumPathOf d),
        Ev.write (sumPathOf d) (str "# Summary\n\n")] (sumPathOf d) =
      some (str "# Summary\n\n") := by
    simp only [List.foldl_cons, List.foldl_nil]
    simp [applyEv, hts]
  rw [hsteps]
  simp [summaryStr]

/-! ## Counting the manifest lines of `SUMMARY.md` -/

/-- Split a string into its newline-separated lines (a trailing newline
yields a final empty line entry). -/
def splitNl : Str → List Str
  | [] => [[]]
  | c :: rest =>
    if c = '\n' then [] :: splitNl rest
    else
      match splitNl rest with
      | [] => [[c]]
      | l :: ls => (c :: l) :: ls

/-- A top-level manifest line naming a chapter. -/
def isTopLine (l : Str) : Bool := (str "- [").isPrefixOf l

/-- An indented manifest line naming a section. -/
def isIndLine (l : Str) : Bool := (str "\t- [").isPrefixOf l

/-- A chapter's manifest line without its trailing newline. -/
def chapLineCore (ch : Chapter) : Str := str "- [" ++ (ch.title ++ str "]()")

/-- A section's manifest line without its trailing newline. -/
def secLineCore (sec : Section) : Str :=
  str "\t- [" ++ (sec.title ++ str "](" ++ (to_tag sec.title ++ str ".md") ++ str ")")

theorem splitNl_append_line : ∀ (a b : Str), '\n' ∉ a →
    splitNl (a ++ '\n' :: b) = a :: splitNl b := by
  intro a
  induction a with
  | nil => intro b _; simp [splitNl]
  | cons c a ih =>
    intro b hnl
    have hc : ¬ c = '\n' := fun h => hnl (h ▸ List.mem_cons_self _ _)
    rw [List.cons_append, splitNl, if_neg hc, ih b (fun h => hnl (List.mem_cons_of_mem _ h))]

theorem isPrefixOf_self_append : ∀ (a x : List Char), a.isPrefixOf (a ++ x) = true := by
  intro a x
  induction a with
  | nil => simp
  | cons c a ih => simp [List.isPrefixOf_cons₂, ih]

theorem isTopLine_top (x : Str) : isTopLine (str "- [" ++ x) = true := by
  simpa [isTopLine] using isPrefixOf_self_append (str "- [") x

theorem isTopLine_ind (x : Str) : isTopLine (str "\t- [" ++ x) = false := by
  simp +decide [isTopLine, str, List.isPrefixOf_cons₂]

theorem isIndLine_ind (x : Str) : isIndLine (str "\t- [" ++ x) = true := by
  simpa [isIndLine] using isPrefixOf_self_append (str "\t- [") x

theorem isIndLine_top (x : Str) : isIndLine (str "- [" ++ x) = false := by
  simp +decide [isIndLine, str, List.isPrefixOf_cons₂]

theorem nl_not_mem_secLineCore {sec : Section} (h : '\n' ∉ sec.title) :
    '\n' ∉ secLineCore sec := by
  intro hmem
  simp only [secLineCore, List.append_assoc, List.mem_append] at hmem
  rcases hmem with hm | hm | hm | hm | hm
  · revert hm; decide
  · exact h hm
  · revert hm; decide
  · exact nl_not_mem_to_tag sec.title hm
  · revert hm; decide

theorem nl_not_mem_chapLineCore {ch : Chapter} (h : '\n' ∉ ch.title) :
    '\n' ∉ chapLineCore ch := by
  intro hmem
  simp only [chapLineCore, List.append_assoc, List.mem_append] at hmem
  rcases hmem with hm | hm | hm
  · revert hm; decide
  · exact h hm
  · revert hm; decide

theorem splitNl_secsStr : ∀ (secs : List Section) (s : Str),
    (∀ sec ∈ secs, '\n' ∉ sec.title) →
    splitNl (secsStr secs ++ s) = secs.map secLineCore ++ splitNl s := by
  intro secs
  induction secs with
  | nil => intro s _; simp [secsStr]
  | cons sec rest ih =>
    intro s h
    rw [show secsStr (sec :: rest) ++ s = secLineCore sec ++ '\n' :: (secsStr rest ++ s) by
      simp [secsStr, secLine, secLineCore, List.append_assoc,
        show str ")\n" = str ")" ++ ['\n'] from rfl]]
    rw [splitNl_append_line _ _ (nl_not_mem_secLineCore (h sec (List.mem_cons_self _ _)))]
    rw [ih s (fun x hx => h x (List.mem_cons_of_mem _ hx))]
    simp

theorem splitNl_chapsStr : ∀ (chaps : List Chapter),
    (∀ ch ∈ chaps, '\n' ∉ ch.title ∧ ∀ sec ∈ ch.sections, '\n' ∉ sec.title) →
    splitNl (chapsStr chaps) =
      (chaps.map fun ch => chapLineCore ch :: (ch.sections.map secLineCore ++ [[]])).flatten
        ++ [[]] := by
  intro chaps
  induction chaps with
  | nil => intro _; simp [chapsStr, splitNl]
  | cons ch rest ih =>
    intro h
    obtain ⟨hch, hsecs⟩ := h ch (List.mem_cons_self _ _)
    rw [show chapsStr (ch :: rest) = chapLineCore ch ++ '\n' ::
        (secsStr ch.sections ++ '\n' :: chapsStr rest) by
      simp [chapsStr, chapLine, chapLineCore, List.append_assoc,
        show str "]()\n" = str "]()" ++ ['\n'] from rfl,
        show str "\n" = ['\n'] from rfl]]
    rw [splitNl_append_line _ _ (nl_not_mem_chapLineCore hch)]
    rw [splitNl_secsStr ch.sections _ hsecs]
    rw [show splitNl ('\n' :: chapsStr rest) = [] :: splitNl (chapsStr rest) by
      simp [splitNl]]
    rw [ih (fun c hc => h c (List.mem_cons_of_mem _ hc))]
    simp

theorem splitNl_summaryStr (b : Book)
    (h : ∀ ch ∈ b.chapters, '\n' ∉ ch.title ∧ ∀ sec ∈ ch.sections, '\n' ∉ sec.title) :
    splitNl (summaryStr b) = str "# Summary" :: [] ::
      ((b.chapters.map fun ch => chapLineCore ch ::
        (ch.sections.map secLineCore ++ [[]])).flatten ++ [[]]) := by
  rw [show summaryStr b = str "# Summary" ++ '\n' :: ('\n' :: chapsStr b.chapters) by
    simp [summaryStr, show str "# Summary\n\n" = str "# Summary" ++ ['\n', '\n'] from rfl]]
  rw [splitNl_append_line _ _ (by decide)]
  rw [show splitNl ('\n' :: chapsStr b.chapters) = [] :: splitNl (chapsStr b.chapters) by
    simp [splitNl]]
  rw [splitNl_chapsStr b.chapters h]

theorem summary_count_top (b : Book)
    (h : ∀ ch ∈ b.chapters, '\n' ∉ ch.title ∧ ∀ sec ∈ ch.sections, '\n' ∉ sec.title) :
    (splitNl (summaryStr b)).countP isTopLine = b.chapters.length := by
  rw [splitNl_summaryStr b h]
  rw [List.countP_cons, List.countP_cons, List.countP_append, List.countP_flatten]
  have h1 : isTopLine (str "# Summary") = false := by decide
  have h2 : isTopLine [] = false := rfl
  have h3 : ∀ ch : Chapter, List.countP isTopLine
      (chapLineCore ch :: (ch.sections.map secLineCore ++ [[]])) = 1 := by
    intro ch
    rw [List.countP_cons, List.countP_append]
    have hz : List.countP isTopLine (ch.sections.map secLineCore) = 0 := by
      rw [List.countP_eq_zero]
      intro l hl
      obtain ⟨sec, _, rfl⟩ := List.mem_map.mp hl
      simp [secLineCore, isTopLine_ind]
    simp [hz, chapLineCore, isTopLine_top, h2]
  rw [h1, h2]
  simp only [List.map_map]
  rw [show (List.map (List.countP isTopLine ∘ fun ch => chapLineCore ch ::
      (ch.sections.map secLineCore ++ [[]])) b.chapters) = b.chapters.map (fun _ => 1) by
    apply List.map_congr_left
    intro ch _
    exact h3 ch]
  simp [h2]

theorem summary_count_ind (b : Book)
    (h : ∀ ch ∈ b.chapters, '\n' ∉ ch.title ∧ ∀ sec ∈ ch.sections, '\n' ∉ sec.title) :
    (splitNl (summaryStr b)).countP isIndLine =
      (b.chapters.map fun ch => ch.sections.length).sum := by
  rw [splitNl_summaryStr b h]
  rw [List.countP_cons, List.countP_cons, List.countP_append, List.countP_flatten]
  have h1 : isIndLine (str "# Summary") = false := by decide
  have h2 : isIndLine [] = false := rfl
  have h3 : ∀ ch : Chapter, List.countP isIndLine
      (chapLineCore ch :: (ch.sections.map secLineCore ++ [[]])) = ch.sections.length := by
    intro ch
    rw [List.countP_cons, List.countP_append]
    have hall : List.countP isIndLine (ch.sections.map secLineCore) =
        ch.sections.length := by
      rw [show List.countP isIndLine (ch.sections.map secLineCore) =
          List.countP (fun _ => true) ch.sections by
        rw [List.countP_map]
        apply List.countP_congr
        intro sec _
        simp [secLineCore, isIndLine_ind]]
      simp [List.countP_true]
    simp [hall, chapLineCore, isIndLine_top, h2]
  rw [h1, h2]
  simp only [List.map_map]
  rw [show (List.map (List.countP isIndLine ∘ fun ch => chapLineCore ch ::
      (ch.sections.map secLineCore ++ [[]])) b.chapters) =
      b.chapters.map (fun ch => ch.sections.length) by
    apply List.map_congr_left
    intro ch _
    exact h3 ch]
  simp [h2]

/-! ## Positional numbering

`numbersOf` lists, in traversal order, the number strings a render emits:
the `Unit {chapter_i}.{section_i}` number of every section and the
`Exercise {chapter_i}.{section_i}.{subsection_i}` / `#[modmod:exercise_ref]`
number of every subsection, each derived from 1-based positions exactly as
`specLog` (and hence `Book.render`) interpolates them. -/

/-- Number strings of a subsection list, starting at position `ui`. -/
def subNumbers (ci si : Nat) : List SubSection → Nat → List Str
  | [], _ => []
  | _ :: rest, ui => refString ci si ui :: subNumbers ci si rest (ui + 1)

/-- Number strings of a section list, starting at position `si`. -/
def secNumbers (ci : Nat) : List Section → Nat → List Str
  | [], _ => []
  | sec :: rest, si =>
    (natStr ci ++ '.' :: natStr si) ::
      (subNumbers ci si sec.subsections 1 ++ secNumbers ci rest (si + 1))

/-- Number strings of a chapter list, starting at position `ci`. -/
def chapNumbers : List Chapter → Nat → List Str
  | [], _ => []
  | ch :: rest, ci => secNumbers ci ch.sections 1 ++ chapNumbers rest (ci + 1)

/-- All number strings emitted when rendering `b`, in traversal order. -/
def numbersOf (b : Book) : List Str := chapNumbers b.chapters 1

/-- The shape of a book: per chapter, per section, the subsection count. -/
def bookShape (b : Book) : List (List Nat) :=
  b.chapters.map fun ch => ch.sections.map fun sec => sec.subsections.length

/-- Number strings determined by a subsection count alone. -/
def shapeSubNumbers (ci si : Nat) : Nat → Nat → List Str
  | 0, _ => []
  | k + 1, ui => refString ci si ui :: shapeSubNumbers ci si k (ui + 1)

/-- Number strings determined by a list of subsection counts alone. -/
def shapeSecNumbers (ci : Nat) : List Nat → Nat → List Str
  | [], _ => []
  | k :: rest, si =>
    (natStr ci ++ '.' :: natStr si) ::
      (shapeSubNumbers ci si k 1 ++ shapeSecNumbers ci rest (si + 1))

/-- Number strings determined by a book shape alone. -/
def shapeNumbers : List (List Nat) → Nat → List Str
  | [], _ => []
  | ks :: rest, ci => shapeSecNumbers ci ks 1 ++ shapeNumbers rest (ci + 1)

/-- Retitling: apply `fb`, `fc`, `fs`, `fu` to the book, chapter, section
and subsection titles respectively, leaving structure and paths unchanged. -/
def retitle (fb fc fs fu : Str → Str) (b : Book) : Book :=
  { title := fb b.title,
    chapters := b.chapters.map fun ch =>
      { title := fc ch.title,
        sections := ch.sections.map fun sec =>
          { title := fs sec.title,
            subsections := sec.subsections.map fun sub =>
              { sub with title := fu sub.title } } } }

theorem subNumbers_shape (ci si : Nat) :
    ∀ (subs : List SubSection) (ui : Nat),
      subNumbers ci si subs ui = shapeSubNumbers ci si subs.length ui := by
  intro subs
  induction subs with
  | nil => intro ui; rfl
  | cons sub rest ih => intro ui; simp [subNumbers, shapeSubNumbers, ih]

theorem secNumbers_shape (ci : Nat) :
    ∀ (secs : List Section) (si : Nat),
      secNumbers ci secs si =
        shapeSecNumbers ci (secs.map fun sec => sec.subsections.length) si := by
  intro secs
  induction secs with
  | nil => intro si; rfl
  | cons sec rest ih =>
    intro si
    simp [secNumbers, shapeSecNumbers, ih, subNumbers_shape]

theorem chapNumbers_shape :
    ∀ (chaps : List Chapter) (ci : Nat),
      chapNumbers chaps ci =
        shapeNumbers (chaps.map fun ch => ch.sections.map fun sec =>
          sec.subsections.length) ci := by
  intro chaps
  induction chaps with
  | nil => intro ci; rfl
  | cons ch rest ih =>
    intro ci
    simp [chapNumbers, shapeNumbers, ih, secNumbers_shape]

/-- Numbers depend only on the shape of the book. -/
theorem numbersOf_eq_shape (b : Book) : numbersOf b = shapeNumbers (bookShape b) 1 :=
  chapNumbers_shape b.chapters 1

/-- Renaming titles never changes the emitted numbers. -/
theorem numbersOf_retitle (fb fc fs fu : Str → Str) (b : Book) :
    numbersOf (retitle fb fc fs fu b) = numbersOf b := by
  rw [numbersOf_eq_shape, numbersOf_eq_shape]
  congr 1
  simp [retitle, bookShape]

/-! ## Builder call sequences

A well-typed client of the builder API performs, for each chapter it opens,
a list of section contexts (each a list of `subsection` calls followed by
either the terminal `add` or dropping the builder), followed by either the
chapter's terminal `add` or dropping the chapter builder.  `SecScript`,
`ChapScript` and `Script` describe exactly these call sequences; `runScript`
executes one against the model's builder operations.  No builder operation
can fail: all of them are total functions. -/

/-- One section context: its title, the `subsection` calls made in it, and
whether it was completed with `add` (`closed = true`) or dropped. -/
structure SecScript where
  title : Str
  subs : List (Str × Str × Str)
  closed : Bool
deriving DecidableEq, Repr

/-- One chapter context: its title, its section contexts in order, and
whether it was completed with `add` or dropped. -/
structure ChapScript where
  title : Str
  secs : List SecScript
  closed : Bool
deriving DecidableEq, Repr

/-- A complete builder call sequence: `Book.builder title`, then the chapter
contexts in order, then `build()`. -/
structure Script where
  title : Str
  chaps : List ChapScript
deriving DecidableEq, Repr

/-- Run one section context against the builder API: open it with
`ChapterBuilder.section`, perform its `subsection` calls, then either
complete it with `SectionBuilder.add` or drop it (returning the untouched
parent chapter builder). -/
def runSec (cb : ChapterBuilder) (s : SecScript) : ChapterBuilder :=
  let sb := cb.«section» s.title
  let sb := s.subs.foldl (fun sb t => sb.subsection t.1 t.2.1 t.2.2) sb
  if s.closed then sb.add else sb.chapter_builder

/-- Run one chapter context against the builder API. -/
def runChap (bb : BookBuilder) (c : ChapScript) : BookBuilder :=
  let cb := bb.chapter c.title
  let cb := c.secs.foldl runSec cb
  if c.closed then cb.add else cb.book_builder

/-- Run a complete builder call sequence and build the final book. -/
def runScript (s : Script) : Book :=
  ((s.chaps.foldl runChap (Book.builder s.title))).build

/-- The book a call sequence should produce: exactly the closed chapters,
each with exactly its closed sections, each with its subsections in call
order. -/
def scriptBook (s : Script) : Book :=
  { title := s.title,
    chapters := s.chaps.filterMap fun c =>
      if c.closed then
        some { title := c.title,
               sections := c.secs.filterMap fun sc =>
                 if sc.closed then
                   some { title := sc.title,
                          subsections := sc.subs.map fun t =>
                            { title := t.1, content := t.2.1, out_dir := t.2.2 } }
                 else none }
      else none }

theorem foldl_subsection (subs : List (Str × Str × Str)) :
    ∀ (sb : SectionBuilder),
      subs.foldl (fun sb t => sb.subsection t.1 t.2.1 t.2.2) sb =
        SectionBuilder.mk sb.chapter_builder
          (Section.mk sb.«section».title
            (sb.«section».subsections ++ subs.map fun t => SubSection.mk t.1 t.2.1 t.2.2)) := by
  induction subs with
  | nil => intro sb; simp
  | cons t rest ih =>
    intro sb
    rw [List.foldl_cons, ih]
    simp [SectionBuilder.subsection]

theorem runSec_spec (cb : ChapterBuilder) (s : SecScript) :
    runSec cb s =
      ChapterBuilder.mk cb.book_builder
        (Chapter.mk cb.chapter.title
          (cb.chapter.sections ++
            (if s.closed then
              [Section.mk s.title (s.subs.map fun t => SubSection.mk t.1 t.2.1 t.2.2)]
            else []))) := by
  rw [runSec, foldl_subsection]
  cases hs : s.closed with
  | true => simp [SectionBuilder.add, ChapterBuilder.«section»]
  | false => simp [ChapterBuilder.«section»]

theorem foldl_runSec (secs : List SecScript) :
    ∀ (cb : ChapterBuilder),
      secs.foldl runSec cb =
        ChapterBuilder.mk cb.book_builder
          (Chapter.mk cb.chapter.title
            (cb.chapter.sections ++ secs.filterMap fun sc =>
              if sc.closed then
                some (Section.mk sc.title (sc.subs.map fun t => SubSection.mk t.1 t.2.1 t.2.2))
              else none)) := by
  induction secs with
  | nil => intro cb; simp
  | cons sc rest ih =>
    intro cb
    rw [List.foldl_cons, runSec_spec, ih]
    cases hs : sc.closed <;> simp [List.filterMap_cons, hs]

theorem runChap_spec (bb : BookBuilder) (c : ChapScript) :
    runChap bb c =
      BookBuilder.mk (Book.mk bb.book.title
        (bb.book.chapters ++
          (if c.closed then
            [Chapter.mk c.title (c.secs.filterMap fun sc =>
              if sc.closed then
                some (Section.mk sc.title (sc.subs.map fun t => SubSection.mk t.1 t.2.1 t.2.2))
              else none)]
          else []))) := by
  rw [runChap, foldl_runSec]
  cases hc : c.closed with
  | true => simp [ChapterBuilder.add, BookBuilder.chapter]
  | false => simp [BookBuilder.chapter]

theorem foldl_runChap (chaps : List ChapScript) :
    ∀ (bb : BookBuilder),
      chaps.foldl runChap bb =
        BookBuilder.mk (Book.mk bb.book.title
          (bb.book.chapters ++ chaps.filterMap fun c =>
            if c.closed then
              some (Chapter.mk c.title (c.secs.filterMap fun sc =>
                if sc.closed then
                  some (Section.mk sc.title
                    (sc.subs.map fun t => SubSection.mk t.1 t.2.1 t.2.2))
                else none))
            else none)) := by
  induction chaps with
  | nil => intro bb; simp
  | cons c rest ih =>
    intro bb
    rw [List.foldl_cons, runChap_spec, ih]
    cases hc : c.closed <;> simp [List.filterMap_cons, hc]

/-- Running any builder call sequence produces exactly the book of its
completed chapters and sections. -/
theorem runScript_eq (s : Script) : runScript s = scriptBook s := by
  rw [runScript, foldl_runChap]
  simp [Book.builder, BookBuilder.build, scriptBook]

/-! ## Render output is the out-directory-relative tree, prefixed

When no write-side operation fails, the event log of a render into `d` is
the log of a render into the empty path with `d` prepended to every event's
path: two renders into fresh directories produce the same relative tree. -/

/-- Prepend a path prefix to an event's path. -/
def prefixEv (d : Str) : Ev → Ev
  | Ev.mkdir p => Ev.mkdir (d ++ p)
  | Ev.create p => Ev.create (d ++ p)
  | Ev.write p s => Ev.write (d ++ p) s

theorem renderSubs_withPre {w : World} (hw : ∀ p, w.writeOk p = true) {d : Str}
    {ci si : Nat} :
    ∀ (subs : List SubSection) (ui : Nat) (l : List Ev) (p₀ : Str),
      renderSubs w (d ++ p₀) ci si subs ui (l.map (prefixEv d)) =
        ((renderSubs w p₀ ci si subs ui l).1.map (prefixEv d),
          (renderSubs w p₀ ci si subs ui l).2) := by
  intro subs
  induction subs with
  | nil => intro ui l p₀; simp [renderSubs]
  | cons sub rest ih =>
    intro ui l p₀
    simp only [renderSubs, hw, if_true]
    cases hread : w.read sub.content with
    | none => simp [List.map_append, prefixEv]
    | some content =>
      dsimp only
      rw [show (l.map (prefixEv d)) ++ [Ev.write (d ++ p₀) (str "## Exercise " ++
          refString ci si ui ++ str ": " ++ sub.title ++ str "\n\n")] ++
          [Ev.write (d ++ p₀) (trimStr (substitute ci si ui sub.out_dir content) ++ str "\n")] =
          (l ++ [Ev.write p₀ (str "## Exercise " ++ refString ci si ui ++ str ": " ++
            sub.title ++ str "\n\n")] ++
            [Ev.write p₀ (trimStr (substitute ci si ui sub.out_dir content) ++
              str "\n")]).map (prefixEv d) by
        simp [List.map_append, prefixEv]]
      exact ih (ui + 1) _ p₀

theorem renderSecs_withPre {w : World} (hw : ∀ p, w.writeOk p = true)
    (hc : ∀ p, w.createOk p = true) {d : Str} {ci : Nat} :
    ∀ (secs : List Section) (si : Nat) (l : List Ev) (src₀ sum₀ : Str),
      renderSecs w (d ++ src₀) (d ++ sum₀) ci secs si (l.map (prefixEv d)) =
        ((renderSecs w src₀ sum₀ ci secs si l).1.map (prefixEv d),
          (renderSecs w src₀ sum₀ ci secs si l).2) := by
  intro secs
  induction secs with
  | nil => intro si l src₀ sum₀; simp [renderSecs]
  | cons sec rest ih =>
    intro si l src₀ sum₀
    simp only [renderSecs, hw, hc, if_true]
    rw [show pjoin (d ++ src₀) (to_tag sec.title ++ str ".md") =
        d ++ pjoin src₀ (to_tag sec.title ++ str ".md") by simp [pjoin]]
    rw [show (l.map (prefixEv d)) ++ [Ev.write (d ++ sum₀) (str "\t- [" ++ sec.title ++
        str "](" ++ (to_tag sec.title ++ str ".md") ++ str ")\n")] ++
        [Ev.create (d ++ pjoin src₀ (to_tag sec.title ++ str ".md"))] ++
        [Ev.write (d ++ pjoin src₀ (to_tag sec.title ++ str ".md"))
          (str "# Unit " ++ natStr ci ++ '.' :: natStr si ++ str " - " ++ sec.title ++
            str "\n\n")] =
        (l ++ [Ev.write sum₀ (str "\t- [" ++ sec.title ++ str "](" ++
            (to_tag sec.title ++ str ".md") ++ str ")\n")] ++
          [Ev.create (pjoin src₀ (to_tag sec.title ++ str ".md"))] ++
          [Ev.write (pjoin src₀ (to_tag sec.title ++ str ".md"))
            (str "# Unit " ++ natStr ci ++ '.' :: natStr si ++ str " - " ++ sec.title ++
              str "\n\n")]).map (prefixEv d) by
      simp [List.map_append, prefixEv]]
    rw [renderSubs_withPre hw sec.subsections 1 _ (pjoin src₀ (to_tag sec.title ++ str ".md"))]
    cases hsub : renderSubs w (pjoin src₀ (to_tag sec.title ++ str ".md")) ci si
        sec.subsections 1
        (l ++ [Ev.write sum₀ (str "\t- [" ++ sec.title ++ str "](" ++
            (to_tag sec.title ++ str ".md") ++ str ")\n")] ++
          [Ev.create (pjoin src₀ (to_tag sec.title ++ str ".md"))] ++
          [Ev.write (pjoin src₀ (to_tag sec.title ++ str ".md"))
            (str "# Unit " ++ natStr ci ++ '.' :: natStr si ++ str " - " ++ sec.title ++
              str "\n\n")]) with
    | mk l₂ r =>
      cases r with
      | none => exact ih (si + 1) l₂ src₀ sum₀
      | some e => rfl

theorem renderChaps_withPre {w : World} (hw : ∀ p, w.writeOk p = true)
    (hc : ∀ p, w.createOk p = true) {d : Str} :
    ∀ (chaps : List Chapter) (ci : Nat) (l : List Ev) (src₀ sum₀ : Str),
      renderChaps w (d ++ src₀) (d ++ sum₀) chaps ci (l.map (prefixEv d)) =
        ((renderChaps w src₀ sum₀ chaps ci l).1.map (prefixEv d),
          (renderChaps w src₀ sum₀ chaps ci l).2) := by
  intro chaps
  induction chaps with
  | nil => intro ci l src₀ sum₀; simp [renderChaps]
  | cons ch rest ih =>
    intro ci l src₀ sum₀
    simp only [renderChaps, hw, if_true]
    rw [show (l.map (prefixEv d)) ++ [Ev.write (d ++ sum₀)
        (str "- [" ++ ch.title ++ str "]()\n")] =
        (l ++ [Ev.write sum₀ (str "- [" ++ ch.title ++ str "]()\n")]).map (prefixEv d) by
      simp [List.map_append, prefixEv]]
    rw [renderSecs_withPre hw hc ch.sections 1 _ src₀ sum₀]
    cases hsec : renderSecs w src₀ sum₀ ci ch.sections 1
        (l ++ [Ev.write sum₀ (str "- [" ++ ch.title ++ str "]()\n")]) with
    | mk l₂ r =>
      cases r with
      | none =>
        dsimp only
        rw [show (l₂.map (prefixEv d)) ++ [Ev.write (d ++ sum₀) (str "\n")] =
            (l₂ ++ [Ev.write sum₀ (str "\n")]).map (prefixEv d) by
          simp [List.map_append, prefixEv]]
        exact ih (ci + 1) _ src₀ sum₀
      | some e => rfl

/-- Factorization of a render into an out-directory-independent relative
log: with all write-side operations succeeding, rendering into `d` gives the
log of rendering into the empty path with `d` prepended to every path, and
the same success status. -/
theorem render_withPre {w : World} (hd : ∀ p, w.dirOk p = true)
    (hc : ∀ p, w.createOk p = true) (hw : ∀ p, w.writeOk p = true)
    (b : Book) (d : Str) :
    Book.render b d w =
      ((Book.render b [] w).1.map (prefixEv d), (Book.render b [] w).2) := by
  simp only [Book.render, hd, hc, hw, if_true]
  rw [show pjoin (pjoin d (str "book")) (str "src") =
      d ++ pjoin (pjoin [] (str "book")) (str "src") by simp [pjoin]]
  rw [show pjoin (pjoin d (str "book")) (str "book.toml") =
      d ++ pjoin (pjoin [] (str "book")) (str "book.toml") by simp [pjoin]]
  rw [show pjoin (d ++ pjoin (pjoin [] (str "book")) (str "src")) (str "SUMMARY.md") =
      d ++ pjoin (pjoin (pjoin [] (str "book")) (str "src")) (str "SUMMARY.md") by
    simp [pjoin]]
  simp only [List.cons_append, List.nil_append]
  rw [show [Ev.mkdir (d ++ pjoin (pjoin [] (str "book")) (str "src")),
      Ev.create (d ++ pjoin (pjoin [] (str "book")) (str "book.toml")),
      Ev.write (d ++ pjoin (pjoin [] (str "book")) (str "book.toml")) bookTomlPayload,
      Ev.create (d ++ pjoin (pjoin (pjoin [] (str "book")) (str "src")) (str "SUMMARY.md")),
      Ev.write (d ++ pjoin (pjoin (pjoin [] (str "book")) (str "src")) (str "SUMMARY.md"))
        (str "# Summary\n\n")] =
      ([Ev.mkdir (pjoin (pjoin [] (str "book")) (str "src")),
        Ev.create (pjoin (pjoin [] (str "book")) (str "book.toml")),
        Ev.write (pjoin (pjoin [] (str "book")) (str "book.toml")) bookTomlPayload,
        Ev.create (pjoin (pjoin (pjoin [] (str "book")) (str "src")) (str "SUMMARY.md")),
        Ev.write (pjoin (pjoin (pjoin [] (str "book")) (str "src")) (str "SUMMARY.md"))
          (str "# Summary\n\n")]).map (prefixEv d) by
    simp [prefixEv]]
  exact renderChaps_withPre hw hc b.chapters 1 _ _ _

/-! ## Byte-level model of the section filename path

`Path::new(&to_tag(..)).with_extension("md")` builds an OS path (a byte
string) from the UTF-8 bytes of a Rust `String`, and `to_str()` succeeds
exactly when those bytes are valid UTF-8.  `utf8EncodeChar`/`utf8DecodeFuel`
model UTF-8 encoding and strict decoding (rejecting continuation-byte leads,
overlong forms, surrogates and out-of-range values). -/

/-- UTF-8 encoding of one unicode scalar value. -/
def utf8EncodeChar (n : Nat) : List Nat :=
  if n < 0x80 then [n]
  else if n < 0x800 then [0xC0 + n / 64, 0x80 + n % 64]
  else if n < 0x10000 then [0xE0 + n / 4096, 0x80 + n / 64 % 64, 0x80 + n % 64]
  else [0xF0 + n / 262144, 0x80 + n / 4096 % 64, 0x80 + n / 64 % 64, 0x80 + n % 64]

/-- Model of `Path::new` applied to a Rust `String`: its UTF-8 bytes. -/
def pathNew (s : Str) : List Nat := (s.map fun c => utf8EncodeChar c.toNat).flatten

/-- Model of `with_extension("md")`: drop an existing extension (from the
last `'.'`, byte 46) if any, then append `".md"` (bytes 46, 109, 100). -/
def withExtensionMd (b : List Nat) : List Nat :=
  (if 46 ∈ b then ((b.reverse.dropWhile fun x => x ≠ 46).drop 1).reverse else b)
    ++ [46, 109, 100]

/-- Strict UTF-8 decoder (fuel-structured); returns `some` exactly on valid
UTF-8 byte strings. -/
def utf8DecodeFuel : Nat → List Nat → Option Str
  | _, [] => some []
  | 0, _ :: _ => none
  | f + 1, b :: rest =>
    if b < 0x80 then (utf8DecodeFuel f rest).map (Char.ofNat b :: ·)
    else if b < 0xC2 then none
    else if b < 0xE0 then
      match rest with
      | b1 :: r =>
        if 0x80 ≤ b1 ∧ b1 < 0xC0 then
          (utf8DecodeFuel f r).map (Char.ofNat ((b - 0xC0) * 64 + (b1 - 0x80)) :: ·)
        else none
      | [] => none
    else if b < 0xF0 then
      match rest with
      | b1 :: b2 :: r =>
        if (0x80 ≤ b1 ∧ b1 < 0xC0) ∧ (0x80 ≤ b2 ∧ b2 < 0xC0) then
          let n := (b - 0xE0) * 4096 + (b1 - 0x80) * 64 + (b2 - 0x80)
          if 0x800 ≤ n ∧ (n < 0xD800 ∨ 0xDFFF < n) then
            (utf8DecodeFuel f r).map (Char.ofNat n :: ·)
          else none
        else none
      | _ => none
    else if b < 0xF5 then
      match rest with
      | b1 :: b2 :: b3 :: r =>
        if (0x80 ≤ b1 ∧ b1 < 0xC0) ∧ (0x80 ≤ b2 ∧ b2 < 0xC0) ∧ (0x80 ≤ b3 ∧ b3 < 0xC0) then
          let n := (b - 0xF0) * 262144 + (b1 - 0x80) * 4096 + (b2 - 0x80) * 64 + (b3 - 0x80)
          if 0x10000 ≤ n ∧ n < 0x110000 then
            (utf8DecodeFuel f r).map (Char.ofNat n :: ·)
          else none
        else none
      | _ => none
    else none

/-- Model of `OsStr::to_str`: decode the path bytes as UTF-8. -/
def osToStr (b : List Nat) : Option Str := utf8DecodeFuel b.length b

theorem utf8DecodeFuel_ascii :
    ∀ (f : Nat) (bytes : List Nat), bytes.length ≤ f → (∀ x ∈ bytes, x < 0x80) →
      utf8DecodeFuel f bytes = some (bytes.map Char.ofNat) := by
  intro f
  induction f with
  | zero =>
    intro bytes hf _
    rw [Nat.le_zero, List.length_eq_zero] at hf
    subst hf
    rfl
  | succ f ih =>
    intro bytes hf hlt
    match bytes with
    | [] => rfl
    | b :: rest =>
      have hb := hlt b (List.mem_cons_self _ _)
      simp only [utf8DecodeFuel, hb, if_true]
      rw [ih rest (Nat.le_of_succ_le_succ (by simpa using hf))
        (fun x hx => hlt x (List.mem_cons_of_mem _ hx))]
      rfl

theorem to_tag_byte_facts (t : Str) :
    ∀ c ∈ to_tag t, c.toNat < 0x80 ∧ c.toNat ≠ 46 := by
  intro c hc
  rcases to_tag_range t c hc with h | h | h <;> omega

theorem flatten_encode_ascii : ∀ (l : Str), (∀ c ∈ l, c.toNat < 0x80) →
    (l.map fun c => utf8EncodeChar c.toNat).flatten = l.map Char.toNat := by
  intro l
  induction l with
  | nil => intro _; rfl
  | cons c rest ih =>
    intro h
    have hc := h c (List.mem_cons_self _ _)
    simp only [List.map_cons, List.flatten_cons]
    rw [show utf8EncodeChar c.toNat = [c.toNat] by simp [utf8EncodeChar, hc]]
    rw [ih (fun x hx => h x (List.mem_cons_of_mem _ hx))]
    rfl

theorem pathNew_to_tag (t : Str) :
    pathNew (to_tag t) = (to_tag t).map Char.toNat :=
  flatten_encode_ascii (to_tag t) (fun c hc => (to_tag_byte_facts t c hc).1)

theorem withExtensionMd_no_dot {b : List Nat} (h : 46 ∉ b) :
    withExtensionMd b = b ++ [46, 109, 100] := by
  simp [withExtensionMd, h]

/-- The section filename path built from `to_tag` is always valid UTF-8:
`to_str()` returns `some`, with exactly the filename string the renderer
interpolates into the manifest. -/
theorem osToStr_section_file (t : Str) :
    osToStr (withExtensionMd (pathNew (to_tag t))) = some (to_tag t ++ str ".md") := by
  rw [pathNew_to_tag]
  have hno : 46 ∉ (to_tag t).map Char.toNat := by
    intro hmem
    obtain ⟨c, hc, he⟩ := List.mem_map.mp hmem
    exact absurd he.symm (to_tag_byte_facts t c hc).2.symm
  rw [withExtensionMd_no_dot hno]
  rw [osToStr]
  have hlt : ∀ x ∈ (to_tag t).map Char.toNat ++ [46, 109, 100], x < 0x80 := by
    intro x hx
    rcases List.mem_append.mp hx with hx | hx
    · obtain ⟨c, hc, rfl⟩ := List.mem_map.mp hx
      exact (to_tag_byte_facts t c hc).1
    · simp only [List.mem_cons, List.not_mem_nil, or_false] at hx
      rcases hx with rfl | rfl | rfl <;> omega
  rw [utf8DecodeFuel_ascii _ _ le_rfl hlt]
  rw [List.map_append, List.map_map]
  rw [show Char.ofNat ∘ Char.toNat = id from funext fun c => by simp [Char.ofNat_toNat]]
  simp only [List.map_id]
  rfl

/-! ## Concrete example inputs used by counterexamples and witnesses -/

/-- A one-chapter, one-section, one-subsection book. -/
def bookA : Book :=
  Book.mk (str "T")
    [Chapter.mk (str "C")
      [Section.mk (str "S")
        [SubSection.mk (str "E") (str "content.md") (str "/x")]]]

/-- A world where every operation succeeds and the single content file
holds `# Title\nbody`. -/
def worldA : World :=
  World.mk (fun _ => true) (fun _ => true) (fun _ => true)
    (fun p => if p = str "content.md" then some (str "# Title\nbody") else none)

/-- A world where every operation succeeds and the single content file
holds `# #[modmod:exercise_ref]\n`. -/
def worldB : World :=
  World.mk (fun _ => true) (fun _ => true) (fun _ => true)
    (fun p => if p = str "content.md" then some (str "# #[modmod:exercise_ref]\n") else none)

/-- A world where all directory, create and write operations succeed but no
file is readable. -/
def worldNoRead : World :=
  World.mk (fun _ => true) (fun _ => true) (fun _ => true) (fun _ => none)

/-! ## The claims -/

/-- C1, counterexample: the claim says source content `# Title\nbody` is
written as `### Title\nbody` in the rendered section file.  In fact the
demotion replaces only `"\n# "`, so a heading at the very start of the
content is not demoted: rendering `bookA`/`worldA` writes the section file
with `# Title\nbody` unchanged, and `### Title` occurs nowhere in it. -/
theorem C1_counterexample :
    getFile (Book.render bookA (str "out") worldA).1
        (pjoin (srcDirOf (str "out")) (str "s.md"))
      = some (str "# Unit 1.1 - S\n\n## Exercise 1.1.1: E\n\n# Title\nbody\n")
    ∧ containsStr (str "# Unit 1.1 - S\n\n## Exercise 1.1.1: E\n\n# Title\nbody\n")
        (str "### Title") = false := by
  decide

/-- C1, amended: every top-level heading marker preceded by a newline
(`"\n# "`) is demoted to `"\n### "` — no `"\n# "` survives substitution —
but a heading marker at the very start of the content is not demoted:
`# Title\nbody` is written unchanged while `intro\n# Title\nbody` becomes
`intro\n### Title\nbody`. -/
theorem C1_demotion_amended (ci si ui : Nat) (dir : Str) (content : Str) :
    containsStr (substitute ci si ui dir content) (str "\n# ") = false
    ∧ substitute ci si ui dir (str "# Title\nbody") = str "# Title\nbody"
    ∧ substitute ci si ui dir (str "intro\n# Title\nbody") = str "intro\n### Title\nbody" := by
  refine ⟨containsStr_substitute_demote ci si ui dir content, ?_, ?_⟩
  · have h1 : replaceStr (str "# Title\nbody") dirToken dir = str "# Title\nbody" :=
      replaceStr_of_not_contains _ (by decide)
    have h2 : replaceStr (str "# Title\nbody") refToken (refString ci si ui) =
        str "# Title\nbody" := replaceStr_of_not_contains _ (by decide)
    rw [substitute, h1, h2]
    decide
  · have h1 : replaceStr (str "intro\n# Title\nbody") dirToken dir =
        str "intro\n# Title\nbody" := replaceStr_of_not_contains _ (by decide)
    have h2 : replaceStr (str "intro\n# Title\nbody") refToken (refString ci si ui) =
        str "intro\n# Title\nbody" := replaceStr_of_not_contains _ (by decide)
    rw [substitute, h1, h2]
    decide

/-- C2, counterexample: the claim says content `# #[modmod:exercise_ref]\n`
renders as `### 1.1.1\n` for chapter 1, section 1, subsection 1.  The
substitution order is as claimed, but the leading `# ` is not preceded by a
newline, so it is never demoted: the section file holds `# 1.1.1\n` and
`### 1.1.1` occurs nowhere in it. -/
theorem C2_counterexample :
    getFile (Book.render bookA (str "out") worldB).1
        (pjoin (srcDirOf (str "out")) (str "s.md"))
      = some (str "# Unit 1.1 - S\n\n## Exercise 1.1.1: E\n\n# 1.1.1\n")
    ∧ containsStr (str "# Unit 1.1 - S\n\n## Exercise 1.1.1: E\n\n# 1.1.1\n")
        (str "### 1.1.1") = false := by
  decide

/-- C2, amended: the three substitutions apply in the order exercise-dir,
exercise-ref, heading demotion; consequently, for chapter 1, section 1,
subsection 1, source content `# #[modmod:exercise_ref]\n` renders as
`# 1.1.1\n` (the heading marker at the start of the content is not preceded
by a newline and is not demoted).  The order is observable: an exercise-dir
value of `"\n# "` substituted into `ab#[modmod:exercise_dir]cd` is itself
demoted afterwards, yielding `ab\n### cd`. -/
theorem C2_order_amended (c s u : Nat) :
    substitute 1 1 1 (str "/x") (str "# #[modmod:exercise_ref]\n") = str "# 1.1.1\n"
    ∧ substitute c s u (str "\n# ") (str "ab#[modmod:exercise_dir]cd") = str "ab\n### cd" := by
  constructor
  · decide
  · have h1 : replaceStr (str "ab#[modmod:exercise_dir]cd") dirToken (str "\n# ") =
        str "ab\n# cd" := by decide
    have h2 : replaceStr (str "ab\n# cd") refToken (refString c s u) = str "ab\n# cd" :=
      replaceStr_of_not_contains _ (by decide)
    rw [substitute, h1, h2]
    decide

/-- C3: for every book rendered successfully, `SUMMARY.md` is exactly the
header `# Summary`, a blank line, then per chapter one top-level line
`- [<chapter title>]()`, one indented line `\t- [<section title>](<slug>.md)`
per section, and a blank line — and (for newline-free titles) it has exactly
`C` top-level manifest lines and `Σ S_c` indented lines, in
chapter-then-section order. -/
theorem C3_summary_structure (b : Book) (d : Str) (w : World) (h : allIOOk b d w)
    (hnl : ∀ ch ∈ b.chapters, '\n' ∉ ch.title ∧ ∀ sec ∈ ch.sections, '\n' ∉ sec.title) :
    getFile (Book.render b d w).1 (sumPathOf d) = some (summaryStr b)
    ∧ (splitNl (summaryStr b)).countP isTopLine = b.chapters.length
    ∧ (splitNl (summaryStr b)).countP isIndLine =
        (b.chapters.map fun ch => ch.sections.length).sum := by
  refine ⟨?_, summary_count_top b hnl, summary_count_ind b hnl⟩
  rw [render_eq_spec h]
  exact getFile_specLog_summary b d w.read

/-- C3, witness at `bookA`, `worldA`. -/
theorem C3_witness :
    getFile (Book.render bookA (str "out") worldA).1 (sumPathOf (str "out"))
      = some (summaryStr bookA)
    ∧ (splitNl (summaryStr bookA)).countP isTopLine = bookA.chapters.length
    ∧ (splitNl (summaryStr bookA)).countP isIndLine =
        (bookA.chapters.map fun ch => ch.sections.length).sum :=
  C3_summary_structure bookA (str "out") worldA (by decide) (by decide)

/-- C4: a successful render emits exactly the events of `specLog`, whose
`Unit {chapter_i}.{section_i}` and `Exercise/`ref `{chapter_i}.{section_i}.
{subsection_i}` numbers are the 1-based positions of each node in its
parent's sequence; renaming titles never changes the emitted numbers, and
the numbers depend only on the shape of the book, so reordering before
building renumbers purely by the new positions. -/
theorem C4_positional_numbering (b : Book) (d : Str) (w : World)
    (fb fc fs fu : Str → Str) (h : allIOOk b d w) :
    Book.render b d w = (specLog b d w.read, none)
    ∧ numbersOf (retitle fb fc fs fu b) = numbersOf b
    ∧ numbersOf b = shapeNumbers (bookShape b) 1 :=
  ⟨render_eq_spec h, numbersOf_retitle fb fc fs fu b, numbersOf_eq_shape b⟩

/-- C4, witness at `bookA`, `worldA`. -/
theorem C4_witness :
    Book.render bookA (str "out") worldA = (specLog bookA (str "out") worldA.read, none)
    ∧ numbersOf (retitle id id id id bookA) = numbersOf bookA
    ∧ numbersOf bookA = shapeNumbers (bookShape bookA) 1 :=
  C4_positional_numbering bookA (str "out") worldA id id id id (by decide)

/-- C5: render returns the single error kind `RenderBookError` exactly when
some primitive I/O operation it attempts (directory creation, file
creation, file read or file write, as listed by `allIOOk`) fails — in
particular an unreadable subsection content file forces the error — and the
event log is always an initial segment of the successful log: the first
failure aborts the render with no retry and no further writes (output
already written remains). -/
theorem C5_error_iff (b : Book) (d : Str) (w : World) :
    ((Book.render b d w).2 = some RenderBookError.mk ↔ ¬ allIOOk b d w)
    ∧ ((∃ ch ∈ b.chapters, ∃ sec ∈ ch.sections, ∃ sub ∈ sec.subsections,
        w.read sub.content = none) → (Book.render b d w).2 = some RenderBookError.mk)
    ∧ (Book.render b d w).1 <+: specLog b d w.read := by
  have hiff : (Book.render b d w).2 = some RenderBookError.mk ↔ ¬ allIOOk b d w := by
    constructor
    · intro he hok
      rw [render_eq_spec hok] at he
      simp at he
    · intro hna
      cases hres : (Book.render b d w).2 with
      | none => exact absurd (render_ok_allIOOk hres) hna
      | some e => cases e; rfl
  refine ⟨hiff, ?_, render_log_pre b d w⟩
  rintro ⟨ch, hch, sec, hsec, sub, hsub, hread⟩
  apply hiff.mpr
  intro hok
  have := ((hok.2.2.2.2.2 ch hch sec hsec).2 sub hsub)
  rw [hread] at this
  simp at this

/-- C5, witness: with a world whose reads all fail, rendering `bookA`
returns the render error. -/
theorem C5_witness :
    (Book.render bookA (str "out") worldNoRead).2 = some RenderBookError.mk :=
  (C5_error_iff bookA (str "out") worldNoRead).2.1
    ⟨Chapter.mk (str "C") [Section.mk (str "S")
        [SubSection.mk (str "E") (str "content.md") (str "/x")]],
      by decide,
      Section.mk (str "S") [SubSection.mk (str "E") (str "content.md") (str "/x")],
      by decide,
      SubSection.mk (str "E") (str "content.md") (str "/x"),
      by decide, rfl⟩

/-- C6: rendering is deterministic across output directories: with all
write-side operations succeeding and the readable file contents fixed, the
render status is independent of the output directory and the event log is a
fixed out-directory-relative log with the output directory prefixed onto
every path — so two renders into fresh directories produce byte-identical
trees at the same relative paths. -/
theorem C6_deterministic (b : Book) (w : World) (d1 d2 : Str)
    (hd : ∀ p, w.dirOk p = true) (hc : ∀ p, w.createOk p = true)
    (hw : ∀ p, w.writeOk p = true) :
    (Book.render b d1 w).2 = (Book.render b d2 w).2
    ∧ (Book.render b d1 w).1 = ((Book.render b [] w).1).map (prefixEv d1)
    ∧ (Book.render b d2 w).1 = ((Book.render b [] w).1).map (prefixEv d2) := by
  have h1 := render_withPre hd hc hw b d1
  have h2 := render_withPre hd hc hw b d2
  refine ⟨?_, ?_, ?_⟩
  · rw [h1, h2]
  · rw [h1]
  · rw [h2]

/-- C6, witness at `bookA`, `worldA`, two distinct output directories. -/
theorem C6_witness :
    (Book.render bookA (str "o1") worldA).2 = (Book.render bookA (str "o2") worldA).2
    ∧ (Book.render bookA (str "o1") worldA).1 =
        ((Book.render bookA [] worldA).1).map (prefixEv (str "o1"))
    ∧ (Book.render bookA (str "o2") worldA).1 =
        ((Book.render bookA [] worldA).1).map (prefixEv (str "o2")) :=
  C6_deterministic bookA worldA (str "o1") (str "o2")
    (fun _ => rfl) (fun _ => rfl) (fun _ => rfl)

/-- C7: running any sequence of builder operations and then `build()`
produces exactly the book of the chapters completed by `add()`, in call
order, each with exactly the sections completed by `add()`, in call order,
each with its subsections in `subsection()` call order; opened but never
completed chapters and sections do not appear.  All builder operations are
total functions, so none can fail. -/
theorem C7_builder_exact (s : Script) : runScript s = scriptBook s :=
  runScript_eq s

/-- C8: rendering a book with no chapters succeeds, performs exactly the
five scaffolding operations, and creates exactly two files: `book.toml`
with the fixed static payload and `SUMMARY.md` containing exactly
`# Summary\n\n`; no other file exists. -/
theorem C8_empty_book (t d : Str) (w : World)
    (h1 : w.dirOk (srcDirOf d) = true) (h2 : w.createOk (tomlPathOf d) = true)
    (h3 : w.writeOk (tomlPathOf d) = true) (h4 : w.createOk (sumPathOf d) = true)
    (h5 : w.writeOk (sumPathOf d) = true) :
    Book.render (Book.mk t []) d w =
      ([Ev.mkdir (srcDirOf d), Ev.create (tomlPathOf d),
        Ev.write (tomlPathOf d) bookTomlPayload,
        Ev.create (sumPathOf d), Ev.write (sumPathOf d) (str "# Summary\n\n")], none)
    ∧ getFile (Book.render (Book.mk t []) d w).1 (tomlPathOf d) = some bookTomlPayload
    ∧ getFile (Book.render (Book.mk t []) d w).1 (sumPathOf d) = some (str "# Summary\n\n")
    ∧ ∀ p : Str, p ≠ tomlPathOf d → p ≠ sumPathOf d →
        getFile (Book.render (Book.mk t []) d w).1 p = none := by
  simp only [srcDirOf, tomlPathOf, sumPathOf] at h1 h2 h3 h4 h5
  have hrender : Book.render (Book.mk t []) d w =
      ([Ev.mkdir (srcDirOf d), Ev.create (tomlPathOf d),
        Ev.write (tomlPathOf d) bookTomlPayload,
        Ev.create (sumPathOf d), Ev.write (sumPathOf d) (str "# Summary\n\n")], none) := by
    simp only [Book.render, h1, h2, h3, h4, h5, if_true, renderChaps,
      srcDirOf, tomlPathOf, sumPathOf]
    simp
  have hts : tomlPathOf d ≠ sumPathOf d := Ne.symm (sumPath_ne_toml d)
  refine ⟨hrender, ?_, ?_, ?_⟩
  · rw [hrender]
    simp [getFile, applyEv, hts]
  · rw [hrender]
    simp [getFile, applyEv, sumPath_ne_toml d]
  · intro p hp1 hp2
    rw [hrender]
    simp [getFile, applyEv, hp1, hp2]

/-- C8, witness at a concrete output directory and all-succeeding world. -/
theorem C8_witness :
    Book.render (Book.mk (str "T") []) (str "out") worldA =
      ([Ev.mkdir (srcDirOf (str "out")), Ev.create (tomlPathOf (str "out")),
        Ev.write (tomlPathOf (str "out")) bookTomlPayload,
        Ev.create (sumPathOf (str "out")),
        Ev.write (sumPathOf (str "out")) (str "# Summary\n\n")], none)
    ∧ getFile (Book.render (Book.mk (str "T") []) (str "out") worldA).1
        (tomlPathOf (str "out")) = some bookTomlPayload
    ∧ getFile (Book.render (Book.mk (str "T") []) (str "out") worldA).1
        (sumPathOf (str "out")) = some (str "# Summary\n\n")
    ∧ ∀ p : Str, p ≠ tomlPathOf (str "out") → p ≠ sumPathOf (str "out") →
        getFile (Book.render (Book.mk (str "T") []) (str "out") worldA).1 p = none :=
  C8_empty_book (str "T") (str "out") worldA rfl rfl rfl rfl rfl

/-- C9: substitutions cascade: after the exercise-dir substitution and the
subsequent exercise-ref substitution, no occurrence of
`#[modmod:exercise_ref]` remains — any occurrence the out-dir substitution
introduced was itself replaced — and after the final demotion no `"\n# "`
remains, so any `"\n# "` introduced by either substitution was demoted. -/
theorem C9_substitution_cascade (ci si ui : Nat) (dir content : Str) :
    containsStr (replaceStr (replaceStr content dirToken dir)
        refToken (refString ci si ui)) refToken = false
    ∧ containsStr (substitute ci si ui dir content) (str "\n# ") = false := by
  constructor
  · exact containsStr_replaceStr_disjoint (by decide) refString_ne_nil
      (fun c hc => refString_disjoint c hc) _
  · exact containsStr_substitute_demote ci si ui dir content

/-- C10: the `to_str().unwrap()` on the section filename never panics: the
path built from the UTF-8 bytes of the `to_tag` slug with the `md`
extension appended always decodes as UTF-8, yielding exactly the filename
string the renderer writes into the manifest. -/
theorem C10_filename_utf8 (title : Str) :
    osToStr (withExtensionMd (pathNew (to_tag title))) = some (to_tag title ++ str ".md") :=
  osToStr_section_file title
